import Mathlib

/-!
Verification development for the VulSim C++ code generator
(`vulsim_codegen.py`).

The Python source is shallowly embedded: XML elements, the bundle
dependency resolver (Kahn's algorithm), the combine descriptor parser
and the code emitter are modelled as executable Lean functions; Python
exceptions and `sys.exit(1)` are modelled with an error type threaded
through `Except`.  The filesystem and libclang (used by
`extract_cpp_function_body`) are external collaborators; where the
model needs them they appear as explicit parameters.
-/

/-- Python exceptions and fatal `sys.exit(1)` outcomes of a generator run.
`wrongRootBundle` / `wrongRootCombine` model the two explicit
`sys.exit(1)` calls on root-tag mismatches, `cycleError` the
`sys.exit(1)` after a failed bundle dependency check (it carries the
names printed in the error message); the first three model unhandled
Python exceptions. -/
inductive Err where
  | nameError
  | attributeError
  | assertionError
  | wrongRootBundle (file : String)
  | wrongRootCombine (file : String)
  | cycleError (names : List String)
deriving DecidableEq, Repr

/-- CPython terminates with exit status 1 both for `sys.exit(1)` and for
an unhandled exception, so every modelled error exits with code 1. -/
def exit_code (_ : Err) : Nat := 1

/-- Characters stripped by Python's `str.strip()`. -/
def pyIsSpace (c : Char) : Bool :=
  c == ' ' || c == '\t' || c == '\n' || c == '\x0d' || c == '\x0b' || c == '\x0c'

/-- Python `str.strip()` on a list of characters. -/
def pyStripL (l : List Char) : List Char :=
  ((l.dropWhile pyIsSpace).reverse.dropWhile pyIsSpace).reverse

/-- Python `str.strip()`. -/
def pyStrip (s : String) : String :=
  (pyStripL s.toList).asString

/-- An XML element as exposed by `xml.etree.ElementTree`: a tag, the
optional text before the first child, and the list of child elements. -/
inductive Elem where
  | mk (tag : String) (text : Option String) (children : List Elem)

/-- Tag of an element. -/
def Elem.tag : Elem → String
  | .mk t _ _ => t

/-- The element's `.text` attribute (`None` when absent). -/
def Elem.text : Elem → Option String
  | .mk _ t _ => t

/-- Child elements. -/
def Elem.children : Elem → List Elem
  | .mk _ _ c => c

/-- `element.find(tag)`: the first direct child with the given tag. -/
def findE (e : Elem) (t : String) : Option Elem :=
  e.children.find? (fun c => c.tag == t)

/-- `element.findall(tag)`: all direct children with the given tag. -/
def findallE (e : Elem) (t : String) : List Elem :=
  e.children.filter (fun c => c.tag == t)

/-- Truthiness of an `ElementTree` element lookup: `None` is falsy, and an
`Element` is truthy iff it has at least one child (its `__len__`);
an element that has text but no children is falsy. -/
def truthyE : Option Elem → Bool
  | none => false
  | some e => !e.children.isEmpty

/-- `element.text.strip()`: `AttributeError` when `.text` is `None`. -/
def textE (e : Elem) : Except Err String :=
  match e.text with
  | none => .error .attributeError
  | some s => .ok (pyStrip s)

/-- `opt.text.strip()` where `opt` is a `find` result: `AttributeError`
when the element was not found or its text is `None`. -/
def textOf (o : Option Elem) : Except Err String :=
  match o with
  | none => .error .attributeError
  | some e => textE e

/-- The `comment` convention used throughout the combine parser:
`x.find("comment").text.strip() if x.find("comment") is not None else ""`. -/
def commentOf (e : Elem) : Except Err String :=
  match findE e "comment" with
  | none => .ok ""
  | some c => textE c

/-- The primitive type names (`basic_data_type` in the source). -/
def basic_data_type : List String :=
  ["bool", "int8", "int16", "int32", "int64", "int128",
   "uint8", "uint16", "uint32", "uint64", "uint128"]

/-- Python dict insertion `d[k] = v`: replaces the value in place when the
key exists (keeping its position in iteration order), appends otherwise. -/
def dinsert {β : Type} (m : List (String × β)) (k : String) (v : β) : List (String × β) :=
  if m.any (fun p => p.1 == k) then
    m.map (fun p => if p.1 == k then (k, v) else p)
  else
    m ++ [(k, v)]

/-! ## Bundle dependency resolver (lines 97-120 of the source)

The resolver works on the list of bundle names (`bundles.keys()`, in
insertion order) and the list of dependency edges: one pair `(a, b)` per
member of bundle `b` whose type is the (known) bundle `a`. -/

/-- One `bundle_graph[a].append(b)` update for the edge `e = (a, b)`. -/
def gstep (g : String → List String) (e : String × String) : String → List String :=
  fun x => if x == e.1 then g x ++ [e.2] else g x

/-- The adjacency map `bundle_graph`, built exactly like the Python loop:
starting from empty lists, `bundle_graph[a].append(b)` per edge `(a, b)`. -/
def bundle_graph (edges : List (String × String)) : String → List String :=
  edges.foldl gstep (fun _ => [])

/-- One `indegree[b] += 1` update for the edge `e = (a, b)`. -/
def istep (ind : String → Int) (e : String × String) : String → Int :=
  fun x => if x == e.2 then ind x + 1 else ind x

/-- The in-degree map, built exactly like the Python loop: starting from
zero, `indegree[b] += 1` per edge `(a, b)`.  Python integers are
unbounded, hence `Int`. -/
def indegree0 (edges : List (String × String)) : String → Int :=
  edges.foldl istep (fun _ => 0)

/-- One step of the inner `for nei in bundle_graph[node]` loop:
decrement the neighbour's in-degree and enqueue it when it reaches 0. -/
def pushZero (p : List String × (String → Int)) (nei : String) : List String × (String → Int) :=
  let ind2 : String → Int := fun x => if x == nei then p.2 x - 1 else p.2 x
  if ind2 nei = 0 then (p.1 ++ [nei], ind2) else (p.1, ind2)

/-- Processing one dequeued node: run `pushZero` over its adjacency list. -/
def stepNode (graph : String → List String) (q : List String) (ind : String → Int)
    (node : String) : List String × (String → Int) :=
  (graph node).foldl pushZero (q, ind)

/-- The `while bundle_queue:` loop.  Fuel-indexed structural recursion;
the second conclusion of `kahnLoop_inv` below shows that fuel
`nodes.length` always drains the queue, so with that fuel this is
exactly the Python loop. -/
def kahnLoop (graph : String → List String) :
    Nat → List String → (String → Int) → List String →
    List String × List String × (String → Int)
  | 0, queued, ind, seqd => (seqd, queued, ind)
  | Nat.succ f, queued, ind, seqd =>
    match queued with
    | [] => (seqd, [], ind)
    | node :: rest =>
      let p := stepNode graph rest ind node
      kahnLoop graph f p.1 p.2 (seqd ++ [node])

/-- Full resolver state after the loop: `(bundle_sequence, queue, indegree)`. -/
def kahn_result (nodes : List String) (edges : List (String × String)) :
    List String × List String × (String → Int) :=
  kahnLoop (bundle_graph edges) nodes.length
    (nodes.filter (fun x => indegree0 edges x == 0)) (indegree0 edges) []

/-- `bundle_sequence`: the emission order produced by Kahn's algorithm. -/
def bundle_sequence (nodes : List String) (edges : List (String × String)) : List String :=
  (kahn_result nodes edges).1

/-- The residual `indegree` map after the loop has finished. -/
def kahn_final_indegree (nodes : List String) (edges : List (String × String)) :
    String → Int :=
  (kahn_result nodes edges).2.2

/-- The names printed by the cycle error:
`[e for e in bundles.keys() if indegree[e] != 0]`. -/
def cycle_names (nodes : List String) (edges : List (String × String)) : List String :=
  nodes.filter (fun e => !(kahn_final_indegree nodes edges e == 0))

/-- Lines 118-120: the check `len(bundle_sequence) != len(bundles.keys())`,
failing with the cycle error naming every unresolved bundle. -/
def bundle_check (nodes : List String) (edges : List (String × String)) :
    Except Err (List String) :=
  if (bundle_sequence nodes edges).length = nodes.length then
    .ok (bundle_sequence nodes edges)
  else
    .error (.cycleError (cycle_names nodes edges))

/-- Number of edges into `b` whose source has not yet been emitted. -/
def residualIn (edges : List (String × String)) (seqd : List String) (b : String) : Nat :=
  edges.countP (fun e => !seqd.contains e.1 && e.2 == b)

/-- The edge relation of the dependency graph: `edgeRel edges a b` holds
when bundle `b` has a member of (bundle) type `a`. -/
def edgeRel (edges : List (String × String)) (a b : String) : Prop :=
  (a, b) ∈ edges

/-- A dependency graph is acyclic when no node reaches itself through a
nonempty edge path. -/
def Acyclic (edges : List (String × String)) : Prop :=
  ∀ n, ¬ Relation.TransGen (edgeRel edges) n n

/-- Position of the first occurrence of a name in a list. -/
def idxOf : List String → String → Nat
  | [], _ => 0
  | b :: t, a => if b = a then 0 else idxOf t a + 1

theorem idxOf_append_left {l₁ : List String} (l₂ : List String) {a : String}
    (h : a ∈ l₁) : idxOf (l₁ ++ l₂) a = idxOf l₁ a := by
  induction l₁ with
  | nil => cases h
  | cons b t ih =>
    by_cases hb : b = a
    · simp [idxOf, hb]
    · rcases List.mem_cons.mp h with h | h
      · exact absurd h.symm hb
      · simp [idxOf, hb, ih h]

theorem idxOf_append_not_mem {l₁ : List String} (l₂ : List String) {a : String}
    (h : a ∉ l₁) : idxOf (l₁ ++ l₂) a = l₁.length + idxOf l₂ a := by
  induction l₁ with
  | nil => simp [idxOf]
  | cons b t ih =>
    have hb : b ≠ a := fun hba => h (hba ▸ List.mem_cons_self b t)
    have ht : a ∉ t := fun hm => h (List.mem_cons_of_mem _ hm)
    simp [idxOf, hb, ih ht]
    omega

theorem idxOf_lt_length {l : List String} {a : String} (h : a ∈ l) :
    idxOf l a < l.length := by
  induction l with
  | nil => cases h
  | cons b t ih =>
    by_cases hb : b = a
    · simp [idxOf, hb]
    · rcases List.mem_cons.mp h with h | h
      · exact absurd h.symm hb
      · simp only [idxOf, hb, if_false, List.length_cons]
        exact Nat.succ_lt_succ (ih h)

theorem bundle_graph_eq (edges : List (String × String)) (a : String) :
    bundle_graph edges a = (edges.filter (fun e => e.1 == a)).map Prod.snd := by
  have key : ∀ (l : List (String × String)) (g : String → List String),
      (l.foldl gstep g) a = g a ++ (l.filter (fun e => e.1 == a)).map Prod.snd := by
    intro l
    induction l with
    | nil => intro g; simp
    | cons e t ih =>
      intro g
      rw [List.foldl_cons, ih]
      by_cases he : e.1 = a
      · have h1 : (a == e.1) = true := by simp [beq_iff_eq, he]
        have h2 : (e.1 == a) = true := by simp [beq_iff_eq, he]
        simp [gstep, h1, h2, List.filter_cons]
      · have h1 : (a == e.1) = false := by
          simp only [beq_eq_false_iff_ne, ne_eq]; exact fun h => he h.symm
        have h2 : (e.1 == a) = false := by simp only [beq_eq_false_iff_ne, ne_eq]; exact he
        simp [gstep, h1, h2, List.filter_cons]
  simpa [bundle_graph] using key edges (fun _ => [])

theorem indegree0_eq (edges : List (String × String)) (b : String) :
    indegree0 edges b = (edges.countP (fun e => e.2 == b) : Int) := by
  have key : ∀ (l : List (String × String)) (g : String → Int),
      (l.foldl istep g) b = g b + (l.countP (fun e => e.2 == b) : Int) := by
    intro l
    induction l with
    | nil => intro g; simp
    | cons e t ih =>
      intro g
      rw [List.foldl_cons, ih]
      by_cases he : e.2 = b
      · have h1 : (b == e.2) = true := by simp [beq_iff_eq, he]
        have h2 : (e.2 == b) = true := by simp [beq_iff_eq, he]
        simp only [istep, h1, if_true, List.countP_cons, h2]
        push_cast
        ring
      · have h1 : (b == e.2) = false := by
          simp only [beq_eq_false_iff_ne, ne_eq]; exact fun h => he h.symm
        have h2 : (e.2 == b) = false := by simp only [beq_eq_false_iff_ne, ne_eq]; exact he
        simp [istep, h1, h2, List.countP_cons]
  simpa [indegree0] using key edges (fun _ => 0)

/-! ## Correctness of the resolver -/

theorem countP_ext {α : Type} (l : List α) {p q : α → Bool}
    (h : ∀ a, p a = q a) : l.countP p = l.countP q := by
  induction l with
  | nil => simp
  | cons a t ih => simp [List.countP_cons, h a, ih]

theorem countP_split {α : Type} (l : List α) (p q : α → Bool) :
    l.countP p = l.countP (fun a => p a && q a) + l.countP (fun a => p a && !q a) := by
  induction l with
  | nil => simp
  | cons a t ih =>
    by_cases hp : p a <;> by_cases hq : q a <;>
      simp [List.countP_cons, hp, hq, ih] <;> omega

theorem countP_le_of_imp {α : Type} (l : List α) {p q : α → Bool}
    (h : ∀ a ∈ l, p a = true → q a = true) : l.countP p ≤ l.countP q := by
  induction l with
  | nil => simp
  | cons a t ih =>
    have ht : ∀ a ∈ t, p a = true → q a = true :=
      fun a ha => h a (List.mem_cons_of_mem _ ha)
    by_cases hp : p a
    · have hq := h a (List.mem_cons_self a t) hp
      simp [List.countP_cons, hp, hq]
      exact ih ht
    · simp only [List.countP_cons, hp, if_false, Nat.add_zero]
      calc t.countP p ≤ t.countP q := ih ht
        _ ≤ t.countP q + (if q a then 1 else 0) := Nat.le_add_right _ _

/-- The decremented in-degree map `indegree[nei] -= 1` (the `let ind2`
inside `pushZero`, named for use in proofs). -/
def decOne (ind : String → Int) (n : String) : String → Int :=
  fun x => if x == n then ind x - 1 else ind x

theorem pushZero_eq (p : List String × (String → Int)) (nei : String) :
    pushZero p nei
      = if decOne p.2 nei nei = 0 then (p.1 ++ [nei], decOne p.2 nei)
        else (p.1, decOne p.2 nei) := rfl

theorem decOne_apply (ind : String → Int) (n x : String) :
    decOne ind n x = if x = n then ind x - 1 else ind x := by
  by_cases hx : x = n <;> simp [decOne, hx]

theorem countP_eq_cons (n : String) (t : List String) (x : String) :
    (n :: t).countP (fun y => y == x)
      = t.countP (fun y => y == x) + (if x = n then 1 else 0) := by
  by_cases hx : x = n
  · subst hx; simp [List.countP_cons]
  · have : ¬(n = x) := fun h => hx h.symm
    simp [List.countP_cons, this, hx]

/-- Characterisation of the inner neighbour loop: starting from queue `q`
and in-degree map `ind`, folding `pushZero` over `neis` decrements each
node's in-degree by its multiplicity in `neis` and appends to the queue
exactly the nodes whose in-degree thereby reaches zero (each at most
once, provided no in-degree can underflow). -/
theorem pushZero_fold (neis : List String) :
    ∀ (q : List String) (ind : String → Int),
      (∀ x, (neis.countP (fun y => y == x) : Int) ≤ ind x) →
      (∀ x, (neis.foldl pushZero (q, ind)).2 x
          = ind x - neis.countP (fun y => y == x)) ∧
      ∃ newly, (neis.foldl pushZero (q, ind)).1 = q ++ newly ∧ newly.Nodup ∧
        (∀ x ∈ newly, (neis.foldl pushZero (q, ind)).2 x = 0 ∧
          neis.countP (fun y => y == x) ≠ 0) ∧
        (∀ x, (neis.foldl pushZero (q, ind)).2 x = 0 → ind x ≠ 0 → x ∈ newly) := by
  induction neis with
  | nil =>
    intro q ind _
    refine ⟨by intro x; simp, [], by simp, List.nodup_nil, by simp, ?_⟩
    intro x h0 hne
    exact absurd (by simpa using h0) hne
  | cons n t ih =>
    intro q ind hpre
    have hpre2 : ∀ x, (t.countP (fun y => y == x) : Int) ≤ decOne ind n x := by
      intro x
      have hx := hpre x
      rw [countP_eq_cons] at hx
      rw [decOne_apply]
      by_cases hxn : x = n
      · rw [if_pos hxn]
        rw [if_pos hxn] at hx
        push_cast at hx ⊢
        omega
      · rw [if_neg hxn]
        rw [if_neg hxn] at hx
        push_cast at hx ⊢
        omega
    by_cases h0 : decOne ind n n = 0
    · -- the neighbour reaches in-degree 0 and is enqueued
      have hd : decOne ind n n = ind n - 1 := by simp [decOne]
      have hn1 : ind n = 1 := by omega
      have hcnt_t_n : t.countP (fun y => y == n) = 0 := by
        have hx := hpre n
        rw [countP_eq_cons, if_pos rfl] at hx
        push_cast at hx
        omega
      have hpz : pushZero (q, ind) n = (q ++ [n], decOne ind n) := by
        rw [pushZero_eq]
        exact if_pos h0
      rw [List.foldl_cons, hpz]
      obtain ⟨ha, newly, hq, hnod, hmem, hcov⟩ := ih (q ++ [n]) (decOne ind n) hpre2
      constructor
      · intro x
        rw [ha x, decOne_apply, countP_eq_cons]
        by_cases hx : x = n <;> simp only [hx, if_true, if_false] <;> push_cast <;> omega
      · refine ⟨n :: newly, by rw [hq, List.append_assoc]; rfl, ?_, ?_, ?_⟩
        · refine List.nodup_cons.mpr ⟨fun hmemn => ?_, hnod⟩
          exact (hmem n hmemn).2 hcnt_t_n
        · intro x hx
          rcases List.mem_cons.mp hx with hx | hx
          · rw [hx]
            refine ⟨?_, ?_⟩
            · rw [ha n, h0]
              push_cast [hcnt_t_n]
            · rw [countP_eq_cons, if_pos rfl]
              simp
          · refine ⟨(hmem x hx).1, ?_⟩
            have h2 := (hmem x hx).2
            rw [countP_eq_cons]
            omega
        · intro x hx0 hxne
          by_cases hx : x = n
          · subst hx; exact List.mem_cons_self _ _
          · have h2 : decOne ind n x ≠ 0 := by
              rw [decOne_apply]
              simpa [hx] using hxne
            exact List.mem_cons_of_mem _ (hcov x hx0 h2)
    · -- the neighbour's in-degree stays nonzero, queue unchanged
      have hpz : pushZero (q, ind) n = (q, decOne ind n) := by
        rw [pushZero_eq]
        exact if_neg h0
      rw [List.foldl_cons, hpz]
      obtain ⟨ha, newly, hq, hnod, hmem, hcov⟩ := ih q (decOne ind n) hpre2
      constructor
      · intro x
        rw [ha x, decOne_apply, countP_eq_cons]
        by_cases hx : x = n <;> simp only [hx, if_true, if_false] <;> push_cast <;> omega
      · refine ⟨newly, hq, hnod, ?_, ?_⟩
        · intro x hx
          refine ⟨(hmem x hx).1, ?_⟩
          have h2 := (hmem x hx).2
          rw [countP_eq_cons]
          omega
        · intro x hx0 hxne
          refine hcov x hx0 ?_
          rw [decOne_apply]
          by_cases hx : x = n
          · subst hx
            have hd := decOne_apply ind x x
            simp only [if_pos rfl] at hd ⊢
            omega
          · simpa [hx] using hxne

theorem contains_iff (l : List String) (a : String) : l.contains a = true ↔ a ∈ l := by
  induction l with
  | nil => simp
  | cons b t ih =>
    by_cases hb : a = b
    · rw [hb]; simp
    · have h1 : (a == b) = false := by
        simp only [beq_eq_false_iff_ne, ne_eq]; exact hb
      rw [List.contains_cons, h1]
      simp only [Bool.false_or]
      rw [ih]
      constructor
      · exact fun h => List.mem_cons_of_mem _ h
      · intro h
        rcases List.mem_cons.mp h with h | h
        · exact absurd h hb
        · exact h

theorem contains_eq_decide (l : List String) (a : String) :
    l.contains a = decide (a ∈ l) := by
  by_cases h : a ∈ l
  · rw [decide_eq_true h]
    exact (contains_iff l a).mpr h
  · rw [decide_eq_false h]
    by_cases hc : l.contains a = true
    · exact absurd ((contains_iff l a).mp hc) h
    · exact Bool.eq_false_iff.mpr hc

theorem nodup_subset_length {l L : List String} (hn : l.Nodup) (hs : ∀ x ∈ l, x ∈ L) :
    l.length ≤ L.length := by
  calc l.length = l.toFinset.card := (List.toFinset_card_of_nodup hn).symm
    _ ≤ L.toFinset.card := by
        apply Finset.card_le_card
        intro x hx
        rw [List.mem_toFinset] at hx ⊢
        exact hs x hx
    _ ≤ L.length := L.toFinset_card_le

theorem countP_graph (edges : List (String × String)) (node x : String) :
    (bundle_graph edges node).countP (fun y => y == x)
      = edges.countP (fun e => e.1 == node && e.2 == x) := by
  rw [bundle_graph_eq]
  induction edges with
  | nil => simp
  | cons e t ih =>
    by_cases h1 : e.1 = node <;> by_cases h2 : e.2 = x <;>
      simp [List.filter_cons, List.countP_cons, h1, h2, ih]

/-- The loop invariant of Kahn's algorithm over state
(`bundle_sequence` so far, queue, in-degree map). -/
structure KInv (nodes : List String) (edges : List (String × String))
    (seqd queued : List String) (ind : String → Int) : Prop where
  nodup : (seqd ++ queued).Nodup
  subset : ∀ x ∈ seqd ++ queued, x ∈ nodes
  resid : ∀ b, ind b = (residualIn edges seqd b : Int)
  zero : ∀ x ∈ seqd ++ queued, ind x = 0
  cover : ∀ x ∈ nodes, ind x = 0 → x ∈ seqd ++ queued
  topo : ∀ e ∈ edges, e.2 ∈ seqd → e.1 ∈ seqd ∧ idxOf seqd e.1 < idxOf seqd e.2

theorem kahn_init (nodes : List String) (edges : List (String × String))
    (Hn : nodes.Nodup) :
    KInv nodes edges [] (nodes.filter fun x => indegree0 edges x == 0)
      (indegree0 edges) := by
  have hres : ∀ b, indegree0 edges b = (residualIn edges [] b : Int) := by
    intro b
    have hnn : edges.countP (fun e => e.2 == b)
        = edges.countP (fun e => !List.contains [] e.1 && e.2 == b) := by
      apply countP_ext
      intro e
      simp [List.contains]
    rw [indegree0_eq, residualIn, ← hnn]
  refine ⟨by simpa using Hn.filter _, ?_, hres, ?_, ?_, ?_⟩
  · intro x hx
    simp only [List.nil_append] at hx
    exact (List.mem_filter.mp hx).1
  · intro x hx
    simp only [List.nil_append] at hx
    have := (List.mem_filter.mp hx).2
    simpa using this
  · intro x hx h0
    simp only [List.nil_append]
    exact List.mem_filter.mpr ⟨hx, by simpa using h0⟩
  · intro e _ h2
    simp at h2

theorem kahn_step (nodes : List String) (edges : List (String × String))
    (He : ∀ e ∈ edges, e.1 ∈ nodes ∧ e.2 ∈ nodes)
    (seqd rest : List String) (ind : String → Int) (node : String)
    (inv : KInv nodes edges seqd (node :: rest) ind) :
    KInv nodes edges (seqd ++ [node]) (stepNode (bundle_graph edges) rest ind node).1
      (stepNode (bundle_graph edges) rest ind node).2 := by
  have hnode_q : node ∈ seqd ++ node :: rest := by simp
  have hnodeseq : node ∉ seqd := by
    have := inv.nodup
    rw [List.nodup_append] at this
    exact fun hmem => this.2.2 hmem (List.mem_cons_self _ _)
  have hzn : ind node = 0 := inv.zero node hnode_q
  -- the multiplicity of x in the adjacency list of node, as edge count
  have hcnt : ∀ x, (bundle_graph edges node).countP (fun y => y == x)
      = edges.countP (fun e => e.1 == node && e.2 == x) := countP_graph edges node
  have hpre : ∀ x, ((bundle_graph edges node).countP (fun y => y == x) : Int) ≤ ind x := by
    intro x
    rw [hcnt x, inv.resid x, residualIn]
    have hle : edges.countP (fun e => e.1 == node && e.2 == x)
        ≤ edges.countP (fun e => !seqd.contains e.1 && e.2 == x) := by
      apply countP_le_of_imp
      intro e _ hpe
      have h1 : e.1 = node := by
        have := (Bool.and_eq_true _ _).mp hpe
        exact beq_iff_eq.mp this.1
      have h2 := ((Bool.and_eq_true _ _).mp hpe).2
      have hc : seqd.contains e.1 = false := by
        rw [h1]
        by_cases hcc : seqd.contains node = true
        · exact absurd ((contains_iff _ _).mp hcc) hnodeseq
        · exact Bool.not_eq_true _ ▸ (Bool.eq_false_iff.mpr hcc)
      rw [hc, h2]
      rfl
    exact_mod_cast hle
  obtain ⟨ha, newly, hq, hnod, hmem, hcov⟩ :=
    pushZero_fold (bundle_graph edges node) rest ind hpre
  have hstep1 : (stepNode (bundle_graph edges) rest ind node).1
      = rest ++ newly := hq
  have hstep2 : ∀ x, (stepNode (bundle_graph edges) rest ind node).2 x
      = ((bundle_graph edges node).foldl pushZero (rest, ind)).2 x := fun _ => rfl
  have hnew_ind : ∀ x ∈ newly, ind x ≠ 0 := by
    intro x hx
    obtain ⟨h0, hc⟩ := hmem x hx
    rw [ha x] at h0
    have : ((bundle_graph edges node).countP (fun y => y == x) : Int) ≠ 0 := by
      exact_mod_cast hc
    omega
  have hold_zero_pres : ∀ x, ind x = 0
      → ((bundle_graph edges node).foldl pushZero (rest, ind)).2 x = 0 := by
    intro x hx
    have hp := hpre x
    rw [ha x]
    omega
  have hedge_of_cnt : ∀ x, (bundle_graph edges node).countP (fun y => y == x) ≠ 0 →
      ∃ e ∈ edges, e.1 = node ∧ e.2 = x := by
    intro x hc
    rw [countP_graph] at hc
    rcases List.countP_pos_iff.mp (Nat.pos_of_ne_zero hc) with ⟨e, hel, hpe⟩
    have hb := (Bool.and_eq_true _ _).mp hpe
    exact ⟨e, hel, beq_iff_eq.mp hb.1, beq_iff_eq.mp hb.2⟩
  have hcontains_node : seqd.contains node = false := by
    by_cases hcc : seqd.contains node = true
    · exact absurd ((contains_iff _ _).mp hcc) hnodeseq
    · exact Bool.eq_false_iff.mpr hcc
  have hmem_old : ∀ x, x ∈ seqd ++ node :: rest → ind x = 0 := inv.zero
  have hrearr : (seqd ++ [node]) ++ (rest ++ newly) = (seqd ++ node :: rest) ++ newly := by
    simp
  refine ⟨?_, ?_, ?_, ?_, ?_, ?_⟩
  · -- nodup
    rw [hstep1, hrearr, List.nodup_append]
    refine ⟨inv.nodup, hnod, ?_⟩
    intro a ha1 ha2
    exact hnew_ind a ha2 (hmem_old a ha1)
  · -- subset
    intro x hx
    rw [hstep1, hrearr] at hx
    rcases List.mem_append.mp hx with hx | hx
    · exact inv.subset x hx
    · obtain ⟨e, hel, he1, he2⟩ := hedge_of_cnt x (hmem x hx).2
      exact he2 ▸ (He e hel).2
  · -- resid
    intro b
    have hsplit : residualIn edges seqd b
        = edges.countP (fun e => e.1 == node && e.2 == b)
          + residualIn edges (seqd ++ [node]) b := by
      rw [residualIn, residualIn,
        countP_split edges (fun e => !seqd.contains e.1 && e.2 == b) (fun e => e.1 == node)]
      congr 1
      · apply countP_ext
        intro e
        by_cases h1 : e.1 = node
        · rw [h1, hcontains_node]
          simp
        · have h1f : (e.1 == node) = false := by
            simp only [beq_eq_false_iff_ne, ne_eq]; exact h1
          simp [h1f]
      · apply countP_ext
        intro e
        rw [contains_eq_decide, contains_eq_decide]
        by_cases hm : e.1 ∈ seqd <;> by_cases hn : e.1 = node <;>
          simp [hm, hn, List.mem_append]
    rw [hstep2, ha b, hcnt b, inv.resid b, hsplit]
    push_cast
    ring
  · -- zero
    intro x hx
    rw [hstep1, hrearr] at hx
    rw [hstep2]
    rcases List.mem_append.mp hx with hx | hx
    · exact hold_zero_pres x (hmem_old x hx)
    · exact (hmem x hx).1
  · -- cover
    intro x hxn hx0
    rw [hstep2] at hx0
    rw [hstep1, hrearr]
    by_cases hz : ind x = 0
    · exact List.mem_append.mpr (Or.inl (inv.cover x hxn hz))
    · exact List.mem_append.mpr (Or.inr (hcov x hx0 hz))
  · -- topo
    intro e hel he2
    rcases List.mem_append.mp he2 with hseq | hnode2
    · obtain ⟨h1, h2⟩ := inv.topo e hel hseq
      refine ⟨List.mem_append.mpr (Or.inl h1), ?_⟩
      rw [idxOf_append_left _ h1, idxOf_append_left _ hseq]
      exact h2
    · have he2n : e.2 = node := by simpa using hnode2
      have hres0 : residualIn edges seqd node = 0 := by
        have := inv.resid node
        rw [hzn] at this
        exact_mod_cast this.symm
      have hall := List.countP_eq_zero.mp hres0
      have he1 : e.1 ∈ seqd := by
        by_contra hne
        have hcf : seqd.contains e.1 = false := by
          by_cases hcc : seqd.contains e.1 = true
          · exact absurd ((contains_iff _ _).mp hcc) hne
          · exact Bool.eq_false_iff.mpr hcc
        have : (!seqd.contains e.1 && e.2 == node) = true := by
          rw [hcf, he2n]
          simp
        exact hall e hel this
      refine ⟨List.mem_append.mpr (Or.inl he1), ?_⟩
      rw [idxOf_append_left _ he1, he2n, idxOf_append_not_mem _ hnodeseq]
      have : idxOf [node] node = 0 := by simp [idxOf]
      rw [this, Nat.add_zero]
      exact idxOf_lt_length he1

/-- The invariant is preserved by the whole loop, and fuel
`nodes.length - seqd.length` is always enough to drain the queue. -/
theorem kahnLoop_inv (nodes : List String) (edges : List (String × String))
    (He : ∀ e ∈ edges, e.1 ∈ nodes ∧ e.2 ∈ nodes) :
    ∀ (fuel : Nat) (queued : List String) (ind : String → Int) (seqd : List String),
      KInv nodes edges seqd queued ind →
      KInv nodes edges (kahnLoop (bundle_graph edges) fuel queued ind seqd).1
          (kahnLoop (bundle_graph edges) fuel queued ind seqd).2.1
          (kahnLoop (bundle_graph edges) fuel queued ind seqd).2.2 ∧
        (nodes.length ≤ fuel + seqd.length →
          (kahnLoop (bundle_graph edges) fuel queued ind seqd).2.1 = []) := by
  intro fuel
  induction fuel with
  | zero =>
    intro queued ind seqd inv
    refine ⟨inv, ?_⟩
    intro hlen
    match hqd : queued with
    | [] => rfl
    | node :: rest =>
      exfalso
      have hlen2 : (seqd ++ node :: rest).length ≤ nodes.length :=
        nodup_subset_length (hqd ▸ inv.nodup) (hqd ▸ inv.subset)
      simp only [List.length_append, List.length_cons] at hlen2
      omega
  | succ f ih =>
    intro queued ind seqd inv
    match queued with
    | [] => exact ⟨inv, fun _ => rfl⟩
    | node :: rest =>
      have inv' := kahn_step nodes edges He seqd rest ind node inv
      have hrec := ih (stepNode (bundle_graph edges) rest ind node).1
        (stepNode (bundle_graph edges) rest ind node).2 (seqd ++ [node]) inv'
      refine ⟨hrec.1, ?_⟩
      intro hlen
      apply hrec.2
      simp only [List.length_append, List.length_cons]
      omega

/-- The state after the full resolver run satisfies the invariant with an
empty queue. -/
theorem kahn_final (nodes : List String) (edges : List (String × String))
    (Hn : nodes.Nodup) (He : ∀ e ∈ edges, e.1 ∈ nodes ∧ e.2 ∈ nodes) :
    KInv nodes edges (bundle_sequence nodes edges) []
      (kahn_final_indegree nodes edges) := by
  have h := kahnLoop_inv nodes edges He nodes.length
    (nodes.filter fun x => indegree0 edges x == 0) (indegree0 edges) []
    (kahn_init nodes edges Hn)
  have hq : (kahn_result nodes edges).2.1 = [] := h.2 (by simp)
  have h1 := h.1
  rw [show kahnLoop (bundle_graph edges) nodes.length
      (nodes.filter fun x => indegree0 edges x == 0) (indegree0 edges) []
      = kahn_result nodes edges from rfl] at h1
  rw [hq] at h1
  exact h1

/-- Under acyclicity every node ends up in the emitted sequence. -/
theorem kahn_complete (nodes : List String) (edges : List (String × String))
    (Hn : nodes.Nodup) (He : ∀ e ∈ edges, e.1 ∈ nodes ∧ e.2 ∈ nodes)
    (Ha : Acyclic edges) :
    ∀ b ∈ nodes, b ∈ bundle_sequence nodes edges := by
  intro b hb
  by_contra hnb
  have inv := kahn_final nodes edges Hn He
  -- the set of unemitted nodes; every one of them has an unemitted predecessor
  set seqF := bundle_sequence nodes edges with hseqF
  have hstuck : ∀ x, x ∈ nodes → x ∉ seqF → ∃ a, (a ∈ nodes ∧ a ∉ seqF) ∧ (a, x) ∈ edges := by
    intro x hxn hxs
    have hind : kahn_final_indegree nodes edges x ≠ 0 := by
      intro h0
      have := inv.cover x hxn h0
      rw [List.append_nil] at this
      exact hxs this
    have hres : residualIn edges seqF x ≠ 0 := by
      intro h0
      apply hind
      rw [inv.resid x, h0]
      rfl
    rcases List.countP_pos_iff.mp (Nat.pos_of_ne_zero hres) with ⟨e, hel, hpe⟩
    have hb2 := (Bool.and_eq_true _ _).mp hpe
    have he2 : e.2 = x := beq_iff_eq.mp hb2.2
    have he1 : e.1 ∉ seqF := by
      intro hmem
      have := (contains_iff seqF e.1).mpr hmem
      rw [this] at hb2
      simp at hb2
    exact ⟨e.1, ⟨(He e hel).1, he1⟩, by rw [← he2, Prod.mk.eta]; exact hel⟩
  classical
  -- choose a predecessor function on the stuck set
  let f : String → String := fun x =>
    if h : ∃ a, (a ∈ nodes ∧ a ∉ seqF) ∧ (a, x) ∈ edges then h.choose else x
  have hf : ∀ x, x ∈ nodes → x ∉ seqF →
      (f x ∈ nodes ∧ f x ∉ seqF) ∧ (f x, x) ∈ edges := by
    intro x hxn hxs
    have hex := hstuck x hxn hxs
    simp only [f, dif_pos hex]
    exact hex.choose_spec
  have hiter : ∀ k, f^[k] b ∈ nodes ∧ f^[k] b ∉ seqF := by
    intro k
    induction k with
    | zero => exact ⟨hb, hnb⟩
    | succ m ihm =>
      rw [Function.iterate_succ_apply']
      exact (hf _ ihm.1 ihm.2).1
  have hstep : ∀ k, (f^[k + 1] b, f^[k] b) ∈ edges := by
    intro k
    rw [Function.iterate_succ_apply']
    exact (hf _ (hiter k).1 (hiter k).2).2
  have hchain : ∀ i d, Relation.TransGen (edgeRel edges) (f^[i + d + 1] b) (f^[i] b) := by
    intro i d
    induction d with
    | zero => exact Relation.TransGen.single (hstep i)
    | succ m ihm =>
      have hnext : edgeRel edges (f^[i + (m + 1) + 1] b) (f^[i + m + 1] b) := by
        have := hstep (i + m + 1)
        simpa [Nat.add_assoc, Nat.add_comm, Nat.add_left_comm] using this
      exact Relation.TransGen.head hnext ihm
  -- pigeonhole over the finite stuck set
  let T : Finset String := nodes.toFinset.filter (fun x => x ∉ seqF)
  have hmapsto : ∀ k ∈ Finset.range (T.card + 1), f^[k] b ∈ T := by
    intro k _
    exact Finset.mem_filter.mpr ⟨List.mem_toFinset.mpr (hiter k).1, (hiter k).2⟩
  have hcard : T.card < (Finset.range (T.card + 1)).card := by
    rw [Finset.card_range]
    omega
  obtain ⟨i, hi, j, hj, hij, heq⟩ :=
    Finset.exists_ne_map_eq_of_card_lt_of_maps_to hcard hmapsto
  rcases Nat.lt_or_ge i j with hlt | hge
  · have hcyc := hchain i (j - i - 1)
    rw [show i + (j - i - 1) + 1 = j by omega] at hcyc
    rw [heq] at hcyc
    exact Ha _ hcyc
  · have hlt : j < i := by omega
    have hcyc := hchain j (i - j - 1)
    rw [show j + (i - j - 1) + 1 = i by omega] at hcyc
    rw [← heq] at hcyc
    exact Ha _ hcyc

theorem acyclic_single_edge : Acyclic [("A", "B")] := by
  have hchar : ∀ a b : String, Relation.TransGen (edgeRel [("A", "B")]) a b →
      a = "A" ∧ b = "B" := by
    intro a b h
    induction h with
    | single h1 =>
      simp only [edgeRel, List.mem_singleton, Prod.mk.injEq] at h1
      exact h1
    | tail _ hstep ihp =>
      simp only [edgeRel, List.mem_singleton, Prod.mk.injEq] at hstep
      exact absurd (ihp.2.symm.trans hstep.1) (by decide)
  intro n h
  have h2 := hchar n n h
  exact absurd (h2.1.symm.trans h2.2) (by decide)

/-- C1: for every acyclic bundle dependency graph (distinct bundle names,
every edge endpoint a known bundle), the resolver's Kahn's-algorithm
output `bundle_sequence` contains every bundle exactly once and places
each bundle strictly before every bundle that has a member of that
bundle's type (i.e. before every edge target whose source it is). -/
theorem C1_kahn_topological_order (nodes : List String) (edges : List (String × String))
    (Hn : nodes.Nodup) (He : ∀ e ∈ edges, e.1 ∈ nodes ∧ e.2 ∈ nodes)
    (Ha : Acyclic edges) :
    (∀ b ∈ nodes, (bundle_sequence nodes edges).count b = 1) ∧
    (∀ b, b ∈ bundle_sequence nodes edges ↔ b ∈ nodes) ∧
    (∀ e ∈ edges, idxOf (bundle_sequence nodes edges) e.1
      < idxOf (bundle_sequence nodes edges) e.2) := by
  have inv := kahn_final nodes edges Hn He
  have hnd : (bundle_sequence nodes edges).Nodup := by
    have := inv.nodup
    simpa using this
  have hsub : ∀ x ∈ bundle_sequence nodes edges, x ∈ nodes := by
    intro x hx
    exact inv.subset x (by simpa using hx)
  have hcompl := kahn_complete nodes edges Hn He Ha
  refine ⟨?_, ?_, ?_⟩
  · intro b hbn
    exact List.count_eq_one_of_mem hnd (hcompl b hbn)
  · intro b
    exact ⟨fun h => hsub b h, fun h => hcompl b h⟩
  · intro e hel
    have h2 : e.2 ∈ bundle_sequence nodes edges := hcompl e.2 (He e hel).2
    exact (inv.topo e hel h2).2

/-- Witness for C1 at the concrete two-bundle graph where bundle B embeds
bundle A (edge A -> B). -/
theorem C1_kahn_topological_order_witness :
    ((["A", "B"] : List String).Nodup ∧
      (∀ e ∈ [("A", "B")], e.1 ∈ ["A", "B"] ∧ e.2 ∈ ["A", "B"]) ∧
      Acyclic [("A", "B")]) ∧
    ((∀ b ∈ ["A", "B"], (bundle_sequence ["A", "B"] [("A", "B")]).count b = 1) ∧
      (∀ b, b ∈ bundle_sequence ["A", "B"] [("A", "B")] ↔ b ∈ ["A", "B"]) ∧
      (∀ e ∈ [("A", "B")], idxOf (bundle_sequence ["A", "B"] [("A", "B")]) e.1
        < idxOf (bundle_sequence ["A", "B"] [("A", "B")]) e.2)) :=
  ⟨⟨by decide, by decide, acyclic_single_edge⟩,
    C1_kahn_topological_order ["A", "B"] [("A", "B")] (by decide) (by decide)
      acyclic_single_edge⟩

/-! ## External function-body extractor (lines 190-210 of the source)

libclang locates the matching top-level `FUNCTION_DECL` and reports its
extent; the Python code then joins `lines[start.line - 1 : end.line]`,
takes the substring strictly between the first `"{"` and the last `"}"`
of that text, and strips it.  The brace/strip logic is `extractCore`;
the clang extent enters as the `startLine`/`endLine` parameters. -/

def openBrace : Char := '\x7b'

def closeBrace : Char := '\x7d'

/-- Python `str.find(c)` on a character: index of the first occurrence. -/
def findIdxL : List Char → Char → Option Nat
  | [], _ => none
  | c :: t, x => if c = x then some 0 else (findIdxL t x).map (· + 1)

/-- Python `str.rfind(c)` on a character: index of the last occurrence. -/
def rfindIdxL (l : List Char) (x : Char) : Option Nat :=
  (findIdxL l.reverse x).map (fun k => l.length - 1 - k)

/-- `func_code[brace_start + 1 : brace_end].strip()` when both braces are
found; the Python loop otherwise falls through and the function returns
the empty string. -/
def extractCore (funcCode : List Char) : List Char :=
  match findIdxL funcCode openBrace, rfindIdxL funcCode closeBrace with
  | some bs, some be => pyStripL ((funcCode.take be).drop (bs + 1))
  | _, _ => []

/-- Model of `extract_cpp_function_body`: `lines` is the `readlines()`
content of the source file and `startLine`/`endLine` the 1-based extent
that libclang reports for the matching top-level function declaration. -/
def extract_cpp_function_body (lines : List String) (startLine endLine : Nat) : String :=
  let func_code := String.join ((lines.drop (startLine - 1)).take (endLine - (startLine - 1)))
  (extractCore func_code.toList).asString

theorem findIdxL_append_first {pre : List Char} {x : Char} (rest : List Char)
    (h : x ∉ pre) : findIdxL (pre ++ x :: rest) x = some pre.length := by
  induction pre with
  | nil => simp [findIdxL]
  | cons c t ih =>
    have hc : c ≠ x := fun hcx => h (hcx ▸ List.mem_cons_self c t)
    have ht : x ∉ t := fun hm => h (List.mem_cons_of_mem _ hm)
    simp [findIdxL, hc, ih ht]

theorem rfindIdxL_last {a post : List Char} {x : Char} (h : x ∉ post) :
    rfindIdxL (a ++ x :: post) x = some a.length := by
  unfold rfindIdxL
  have hrev : (a ++ x :: post).reverse = post.reverse ++ x :: a.reverse := by
    simp
  rw [hrev]
  have hpost : x ∉ post.reverse := fun hm => h (List.mem_reverse.mp hm)
  rw [findIdxL_append_first _ hpost]
  show some ((a ++ x :: post).length - 1 - post.reverse.length) = some a.length
  have hlen : (a ++ x :: post).length - 1 - post.reverse.length = a.length := by
    simp only [List.length_append, List.length_cons, List.length_reverse]
    omega
  rw [hlen]

/-- The brace slice returns exactly the body (stripped) whenever the text
before the opening brace has no `{` and the text after the closing brace
has no `}`. -/
theorem extractCore_spec (pre body post : List Char)
    (h1 : openBrace ∉ pre) (h2 : closeBrace ∉ post) :
    extractCore ((pre ++ openBrace :: body) ++ closeBrace :: post) = pyStripL body := by
  have hf : findIdxL ((pre ++ openBrace :: body) ++ closeBrace :: post) openBrace
      = some pre.length := by
    rw [List.append_assoc, List.cons_append]
    exact findIdxL_append_first _ h1
  have hr : rfindIdxL ((pre ++ openBrace :: body) ++ closeBrace :: post) closeBrace
      = some (pre ++ openBrace :: body).length := rfindIdxL_last h2
  simp only [extractCore, hf, hr]
  rw [List.take_left]
  have hsplit : pre ++ openBrace :: body = (pre ++ [openBrace]) ++ body := by simp
  rw [hsplit]
  have hlen : pre.length + 1 = (pre ++ [openBrace]).length := by simp
  rw [hlen, List.drop_left]

theorem pyIsSpace_ne_openBrace {c : Char} (h : pyIsSpace c = true) : c ≠ openBrace := by
  intro heq
  rw [heq] at h
  exact absurd h (by decide)

/-- C5: for every source text decomposing as prefix, outermost braces and
suffix (the prefix holding no opening brace and the suffix no closing
brace, as for a top-level function declaration), the extractor returns
exactly the text strictly between the braces with leading/trailing
whitespace stripped and interior line breaks preserved verbatim; in
particular extracting the body of `void f(int x) { return x+1; }` yields
`return x+1;` under arbitrary leading indentation. -/
theorem C5_extract_between_braces :
    (∀ pre body post : List Char, openBrace ∉ pre → closeBrace ∉ post →
      extractCore ((pre ++ openBrace :: body) ++ closeBrace :: post) = pyStripL body) ∧
    (∀ indent : String, (∀ c ∈ indent.toList, pyIsSpace c = true) →
      extract_cpp_function_body [indent ++ "void f(int x) \x7b return x+1; \x7d"] 1 1
        = "return x+1;") := by
  refine ⟨extractCore_spec, ?_⟩
  intro indent hws
  have hstart : extract_cpp_function_body
      [indent ++ "void f(int x) \x7b return x+1; \x7d"] 1 1
      = (extractCore (indent.toList ++ ("void f(int x) \x7b return x+1; \x7d").toList)).asString := rfl
  have hshape : indent.toList ++ ("void f(int x) \x7b return x+1; \x7d").toList
      = ((indent.toList ++ ("void f(int x) ").toList) ++ openBrace :: (" return x+1; ").toList)
          ++ closeBrace :: ([] : List Char) := by
    rw [List.append_assoc, List.append_assoc]
    congr 1
  have hpre : openBrace ∉ indent.toList ++ ("void f(int x) ").toList := by
    intro hmem
    rcases List.mem_append.mp hmem with hmem | hmem
    · exact pyIsSpace_ne_openBrace (hws _ hmem) rfl
    · exact absurd hmem (by decide)
  have hpost : closeBrace ∉ ([] : List Char) := by simp
  rw [hstart, hshape, extractCore_spec _ _ _ hpre hpost]
  decide

/-- Witness for C5: a concrete decomposition and the concrete single-line
file with leading whitespace. -/
theorem C5_extract_between_braces_witness :
    ((openBrace ∉ ("void g(int y) ").toList ∧ closeBrace ∉ ("  ").toList) ∧
      extractCore ((("void g(int y) ").toList ++ openBrace :: (" x = y;\n  y = 0; ").toList)
          ++ closeBrace :: ("  ").toList) = pyStripL (" x = y;\n  y = 0; ").toList) ∧
    ((∀ c ∈ ("  \t" : String).toList, pyIsSpace c = true) ∧
      extract_cpp_function_body ["  \t" ++ "void f(int x) \x7b return x+1; \x7d"] 1 1
        = "return x+1;") :=
  ⟨⟨⟨by decide, by decide⟩,
      C5_extract_between_braces.1 _ _ _ (by decide) (by decide)⟩,
    ⟨by decide, C5_extract_between_braces.2 "  \t" (by decide)⟩⟩

/-! ## Bundle descriptor parsing and bundle.h emission (lines 68-146) -/

/-- `BundleMember` dataclass. -/
structure BundleMember where
  name : String
  type : String
  value : String
deriving DecidableEq, Repr

/-- One `member` element: `value` contributes a default only when the type
is primitive and the `value` element is *truthy* (has child elements);
otherwise the default stays `"0"`. -/
def parseBundleMember (member : Elem) : Except Err BundleMember := do
  let m_name ← textOf (findE member "name")
  let m_type ← textOf (findE member "type")
  let m_value ←
    if basic_data_type.contains m_type && truthyE (findE member "value") then
      textOf (findE member "value")
    else
      pure "0"
  return ⟨m_name, m_type, m_value⟩

/-- One bundle descriptor file: root-tag check, then name and members. -/
def parseBundleFile (fname : String) (root : Elem) :
    Except Err (String × List BundleMember) :=
  if root.tag ≠ "bundle" then .error (.wrongRootBundle fname)
  else do
    let name ← textOf (findE root "name")
    let members ← (findallE root "member").foldlM (fun acc m => do
        let bm ← parseBundleMember m
        return acc ++ [bm]) ([] : List BundleMember)
    return (name, members)

/-- The `bundle_depend_former` pairs contributed by one bundle: `(type,
name)` per member whose type is not primitive. -/
def bundleDeps (name : String) (members : List BundleMember) : List (String × String) :=
  (members.filter (fun m => !basic_data_type.contains m.type)).map (fun m => (m.type, name))

/-- Loading every bundle file: the name-keyed `bundles` dict (insertion
order, overwrite-in-place) and the accumulated dependency pairs. -/
def parseBundles (files : List (String × Elem)) :
    Except Err (List (String × List BundleMember) × List (String × String)) :=
  files.foldlM (fun acc f => do
      let nm ← parseBundleFile f.1 f.2
      return (dinsert acc.1 nm.1 nm.2, acc.2 ++ bundleDeps nm.1 nm.2))
    (([] : List (String × List BundleMember)), ([] : List (String × String)))

/-- Dict lookup `bundles[name]`. -/
def lookupB {β : Type} (m : List (String × β)) (k : String) : Option β :=
  (m.find? (fun p => p.1 == k)).map Prod.snd

/-- The emitted `bundle.h` lines (lines 126-141). -/
def bundle_h_lines (bundles : List (String × List BundleMember)) (seqd : List String) :
    List String :=
  ["#pragma once", "", "#include \"common.h\"", "#include \"global.h\"", ""] ++
  seqd.foldl (fun acc bundle =>
    let members := (lookupB bundles bundle).getD []
    acc ++ ["typedef struct \x7b"] ++
      members.map (fun mem =>
        if basic_data_type.contains mem.type then
          "    " ++ mem.type ++ " " ++ mem.name ++ " = " ++ mem.value ++ ";"
        else
          "    " ++ mem.type ++ " " ++ mem.name ++ ";") ++
      ["\x7d " ++ bundle ++ ";", ""]) []

/-! ## Combine descriptor parsing (lines 167-460) -/

/-- `Argument` dataclass. -/
structure Argument where
  type : String
  name : String
deriving DecidableEq, Repr

/-- The `Function` dataclass of the source (named `FuncSig` here because
`Function` is a reserved namespace in Lean). -/
structure FuncSig where
  name : String
  arg : List Argument
  ret : List Argument
deriving DecidableEq, Repr

/-- The filesystem/libclang collaborator: maps a `cppfunc` file name and
function name to the text `extract_cpp_function_body` would return. -/
def CppEnv : Type := String → String → String

/-- Python `", ".join(...)`. -/
def joinComma (l : List String) : String := String.intercalate ", " l

/-- Python `"%s" % t` where `t` is a pair of strings (the source
accidentally formats the `(name, comment)` tuple itself). -/
def pyReprStrPair (a b : String) : String := "('" ++ a ++ "', '" ++ b ++ "')"

/-- Shared handling of a `cppfunc` element (used by service/function,
init, tick and applytick): extracted external body first (split on
newlines), then inline `code` fragments.  A missing `cppfunc` element is
an `AttributeError` (`None.find`). -/
def cppfuncLines (cppfunc : Option Elem) (env : CppEnv) : Except Err (List String) :=
  match cppfunc with
  | none => .error .attributeError
  | some cf => do
    let base ←
      if (findE cf "file").isSome then do
        let cppfuncfile ← textOf (findE cf "file")
        let cppfuncname ← textOf (findE cf "name")
        pure ((env cppfuncfile cppfuncname).splitOn "\n")
      else
        pure ([] : List String)
    let codes ← (findallE cf "code").mapM textE
    return base ++ codes

/-- Accumulator of a pipein/pipeout loop: member lines, constructor
argument lines, constructor body lines, and the `info` port dict. -/
structure PortOut where
  mf : List String
  caf : List String
  cf : List String
  ports : List (String × String)

def parsePipein (items : List Elem) : Except Err PortOut :=
  items.foldlM (fun acc pipein => do
      let name ← textOf (findE pipein "name")
      let type ← textOf (findE pipein "type")
      let argtype := if !basic_data_type.contains type then type ++ " &" else type
      let comment ← commentOf pipein
      return ⟨acc.mf ++
          ["PipeInputPort<" ++ type ++ "> * _pipein_" ++ name ++ ";",
           "/* " ++ comment ++ " */",
           "bool " ++ name ++ "_can_pop() \x7b return _pipein_" ++ name ++ "->can_pop(); \x7d;",
           "/* " ++ comment ++ " */",
           argtype ++ " " ++ name ++ "_top() \x7b return _pipein_" ++ name ++ "->top(); \x7d;",
           "/* " ++ comment ++ " */",
           "void " ++ name ++ "_pop() \x7b _pipein_" ++ name ++ "->pop(); \x7d;"],
        acc.caf ++ ["PipeInputPort<" ++ type ++ "> * pipein_" ++ name ++ ";"],
        acc.cf ++ ["this->_pipein_" ++ name ++ " = arg.pipein_" ++ name ++ ";"],
        dinsert acc.ports name type⟩)
    ⟨[], [], [], []⟩

def parsePipeout (items : List Elem) : Except Err PortOut :=
  items.foldlM (fun acc pipeout => do
      let name ← textOf (findE pipeout "name")
      let type ← textOf (findE pipeout "type")
      let argtype := if !basic_data_type.contains type then type ++ " &" else type
      let comment ← commentOf pipeout
      return ⟨acc.mf ++
          ["PipeOutputPort<" ++ type ++ "> * _pipeout_" ++ name ++ ";",
           "/* " ++ comment ++ " */",
           "bool " ++ name ++ "_can_push() \x7b return _pipeout_" ++ name ++ "->can_push(); \x7d;",
           "/* " ++ comment ++ " */",
           "void " ++ name ++ "_push(" ++ argtype ++ " value) \x7b _pipeout_" ++ name
             ++ "->push(value); \x7d;"],
        acc.caf ++ ["PipeOutputPort<" ++ type ++ "> * pipeout_" ++ name ++ ";"],
        acc.cf ++ ["this->_pipeout_" ++ name ++ " = arg.pipeout_" ++ name ++ ";"],
        dinsert acc.ports name type⟩)
    ⟨[], [], [], []⟩

/-- State of the `for arg in x.findall("arg")` loop; `lastArg` models the
module-level `arg_type`/`arg_name` variables, which hold the *display*
type (with `" &"` appended for composite types) of the last parsed
argument anywhere in the run, or `none` when never assigned. -/
structure ArgLoopState where
  stmts : List String
  names : List String
  comments : List (String × String)
  args : List Argument
  lastArg : Option (String × String)

def parseArgs (items : List Elem) (lastArg : Option (String × String)) :
    Except Err ArgLoopState :=
  items.foldlM (fun st arg => do
      let arg_type ← textOf (findE arg "type")
      let arg_name ← textOf (findE arg "name")
      let dispType := if !basic_data_type.contains arg_type then arg_type ++ " &" else arg_type
      let comment ← commentOf arg
      return ⟨st.stmts ++ [dispType ++ " " ++ arg_name],
        st.names ++ [arg_name],
        st.comments ++ [(arg_name, comment)],
        st.args ++ [⟨arg_type, arg_name⟩],
        some (dispType, arg_name)⟩)
    ⟨[], [], [], [], lastArg⟩

/-- The `for ret in x.findall("return")` loop.  The source appends
`Argument(arg_type, arg_name)` — the module-level variables of the *arg*
loop — to `func.ret`; that read raises `NameError` when no argument has
ever been parsed in the run. -/
def parseRets (items : List Elem) (st : ArgLoopState) :
    Except Err (ArgLoopState × List Argument) :=
  items.foldlM (fun p ret => do
      let ret_type ← textOf (findE ret "type")
      let ret_name ← textOf (findE ret "name")
      let la ← (match p.1.lastArg with
        | none => Except.error Err.nameError
        | some v => Except.ok v)
      let comment ← commentOf ret
      return (⟨p.1.stmts ++ [ret_type ++ " * " ++ ret_name],
          p.1.names ++ [ret_name],
          p.1.comments ++ [(ret_name, comment)],
          p.1.args, p.1.lastArg⟩,
        p.2 ++ [⟨la.1, la.2⟩]))
    (st, [])

structure ReqOut where
  mf : List String
  caf : List String
  cf : List String
  reqs : List (String × FuncSig)
  lastArg : Option (String × String)

def parseRequests (items : List Elem) (lastArg0 : Option (String × String)) :
    Except Err ReqOut :=
  items.foldlM (fun acc request => do
      let name ← textOf (findE request "name")
      let ar ← parseArgs (findallE request "arg") acc.lastArg
      let rr ← parseRets (findallE request "return") ar
      let topComment ← (match findE request "comment" with
        | none => pure ("Request " ++ name)
        | some c => textE c)
      let paramLines := (List.zip rr.1.names rr.1.comments).map
        (fun pc => " * @param " ++ pc.1 ++ ": " ++ pyReprStrPair pc.2.1 pc.2.2)
      return ⟨acc.mf ++
          ["void (*_request_" ++ name ++ ")(" ++ joinComma rr.1.stmts ++ ");", "/*",
           " * " ++ topComment] ++ paramLines ++
          [" */",
           "void " ++ name ++ "(" ++ joinComma rr.1.stmts ++ ") \x7b _request_" ++ name
             ++ "(" ++ joinComma rr.1.names ++ "); \x7d;"],
        acc.caf ++ ["void (*request_" ++ name ++ ")(" ++ joinComma rr.1.stmts ++ ");"],
        acc.cf ++ ["this->_request_" ++ name ++ " = arg.request_" ++ name ++ ";"],
        dinsert acc.reqs name ⟨name, rr.1.args, rr.2⟩,
        rr.1.lastArg⟩)
    ⟨[], [], [], [], lastArg0⟩

structure SvcOut where
  mf : List String
  ff : List String
  services : List (String × FuncSig)
  functions : List (String × FuncSig)
  lastArg : Option (String × String)

def parseServices (items : List Elem) (lastArg0 : Option (String × String))
    (env : CppEnv) (cname : String) : Except Err SvcOut :=
  items.foldlM (fun acc service => do
      let name ← textOf (findE service "name")
      let ar ← parseArgs (findallE service "arg") acc.lastArg
      let rr ← parseRets (findallE service "return") ar
      let topComment ← (match findE service "comment" with
        | none => pure ("Service " ++ name)
        | some c => textE c)
      let paramLines := (List.zip rr.1.names rr.1.comments).map
        (fun pc => " * @param " ++ pc.1 ++ ": " ++ pyReprStrPair pc.2.1 pc.2.2)
      let body ← cppfuncLines (findE service "cppfunc") env
      return ⟨acc.mf ++ ["/*", " * " ++ topComment] ++ paramLines ++
          [" */", "void " ++ name ++ "(" ++ joinComma rr.1.stmts ++ ");"],
        acc.ff ++
          ["void " ++ cname ++ "::" ++ name ++ "(" ++ joinComma rr.1.stmts ++ ") \x7b"]
          ++ body ++ ["\x7d", ""],
        (if service.tag == "service"
          then dinsert acc.services name ⟨name, rr.1.args, rr.2⟩ else acc.services),
        (if service.tag == "service"
          then acc.functions else dinsert acc.functions name ⟨name, rr.1.args, rr.2⟩),
        rr.1.lastArg⟩)
    ⟨[], [], [], [], lastArg0⟩

def parseStorage (items : List Elem) (lastStorage0 : Option Elem) :
    Except Err (List String × Option Elem) :=
  items.foldlM (fun acc storage => do
      let name ← textOf (findE storage "name")
      let type ← textOf (findE storage "type")
      let comment ← commentOf storage
      let decl ←
        if truthyE (findE storage "value") then do
          let value ← textOf (findE storage "value")
          pure (type ++ " " ++ name ++ " = " ++ value ++ ";")
        else if basic_data_type.contains type then
          pure (type ++ " " ++ name ++ " = 0;")
        else
          pure (type ++ " " ++ name ++ ";")
      return (acc.1 ++ ["/* " ++ comment ++ " */", decl], some storage))
    (([] : List String), lastStorage0)

structure SnextOut where
  mf : List String
  atf : List String
  names : List String

/-- One iteration of the `storagenext` loop.  BUG preserved from the
source (line 370): the default-value check reads `storage.find("value")`
— `storage` being the loop variable left over from the *previous*
`storage` loop (or from an earlier combine file), not the current
`storagenext` element.  When no storage element has been parsed in the
run, the read raises `NameError`. -/
def snextStep (lastStorage : Option Elem) (acc : SnextOut) (storagenext : Elem) :
    Except Err SnextOut := do
      let name ← textOf (findE storagenext "name")
      let type ← textOf (findE storagenext "type")
      let argtype := if !basic_data_type.contains type then type ++ " &" else type
      let comment ← commentOf storagenext
      let decl ← (match lastStorage with
        | none => Except.error Err.nameError
        | some storage =>
          if truthyE (findE storage "value") then do
            let value ← textOf (findE storage "value")
            Except.ok ("StorageNext<" ++ type ++ "> _storagenext_" ++ name
              ++ " = StorageNext<" ++ type ++ ">(" ++ value ++ ");")
          else
            Except.ok ("StorageNext<" ++ type ++ "> _storagenext_" ++ name ++ ";"))
      return ⟨acc.mf ++ [decl, "/* " ++ comment ++ " */",
          argtype ++ " " ++ name ++ "_get() \x7b return _storagenext_" ++ name ++ ".get(); \x7d;",
          "/* " ++ comment ++ " */",
          "void " ++ name ++ "_setnext(" ++ argtype ++ " value, uint8 priority) \x7b _storagenext_"
            ++ name ++ ".setnext(value, priority); \x7d ;"],
        acc.atf ++ ["_storagenext_" ++ name ++ ".apply_tick();"],
        acc.names ++ [name]⟩

def parseStoragenext (items : List Elem) (lastStorage : Option Elem) :
    Except Err SnextOut :=
  items.foldlM (snextStep lastStorage) ⟨[], [], []⟩

structure StickOut where
  mf : List String
  atf : List String
  pairs : List (String × String)

def stickStep (acc : StickOut) (storagetick : Elem) : Except Err StickOut := do
      let name ← textOf (findE storagetick "name")
      let type ← textOf (findE storagetick "type")
      let value ← (if (findE storagetick "value").isSome
        then textOf (findE storagetick "value") else pure "0")
      if !basic_data_type.contains type then throw Err.assertionError
      let _comment ← commentOf storagetick
      return ⟨acc.mf ++ [type ++ " " ++ name ++ " = " ++ value ++ ";"],
        acc.atf ++ [name ++ " = " ++ value ++ ";"],
        acc.pairs ++ [(name, value)]⟩

def parseStoragetick (items : List Elem) : Except Err StickOut :=
  items.foldlM stickStep ⟨[], [], []⟩

def parseConfig (items : List Elem) : Except Err (List String) :=
  items.foldlM (fun acc config => do
      let name ← textOf (findE config "name")
      let value ← textOf (findE config "value")
      let _comment ← commentOf config
      return acc ++ ["const int64 " ++ name ++ " = " ++ value ++ ";"])
    ([] : List String)

def parseInit (items : List Elem) (env : CppEnv) : Except Err (List String) :=
  items.foldlM (fun acc ini => do
      let lines ← cppfuncLines (findE ini "cppfunc") env
      return acc ++ lines)
    ([] : List String)

def codetab : String := "    "

/-- All per-combine accumulator lists of the parsing loop (lines 225-233),
plus the structured views needed to state the applytick properties:
`snextNames` (storagenext field names in order), `stickPairs`
(storagetick `(name, default)` pairs in order) and `stallFlag`.
`tick_field` and `deconstructor_field` are initialised empty and — like
in the source — never appended to. -/
structure CombineOut where
  cname : String
  rootComment : String
  constructor_arguments_field : List String
  constructor_field : List String
  deconstructor_field : List String
  member_field : List String
  function_field : List String
  tick_field : List String
  applytick_field : List String
  user_tick_field : List String
  user_applytick_field : List String
  warningsAdded : List String
  snextNames : List String
  stickPairs : List (String × String)
  stallFlag : Bool
deriving Repr, Inhabited, DecidableEq

/-- Parsing one combine descriptor (everything between lines 220 and 460
except the root-tag check, which `processCombineFile` performs).
Threads the module-level `storage` and `arg_type`/`arg_name` variables
in and out. -/
def parseCombine (root : Elem) (lastStorage : Option Elem)
    (lastArg : Option (String × String)) (env : CppEnv) :
    Except Err (CombineOut × Option Elem × Option (String × String)) := do
  let cname ← textOf (findE root "name")
  let pi ← parsePipein (findallE root "pipein")
  let po ← parsePipeout (findallE root "pipeout")
  let rq ← parseRequests (findallE root "request") lastArg
  let sv ← parseServices (findallE root "service" ++ findallE root "function") rq.lastArg env cname
  let st ← parseStorage (findallE root "storage") lastStorage
  let sn ← parseStoragenext (findallE root "storagenext") st.2
  let tk ← parseStoragetick (findallE root "storagetick")
  let cfg ← parseConfig (findallE root "config")
  let initcf ← parseInit (findallE root "init") env
  let ticks := findallE root "tick"
  let warnT := if ticks.length > 1
    then ["Combine " ++ cname ++ " has multiple tick(), only the first one is used"]
    else []
  let utf ← (match ticks with
    | [] => pure ([] : List String)
    | t :: _ => cppfuncLines (findE t "cppfunc") env)
  let aticks := findallE root "applytick"
  let warnA := if aticks.length > 1
    then ["Combine " ++ cname ++ " has multiple applytick(), only the first one is used"]
    else []
  let uatf ← (match aticks with
    | [] => pure ([] : List String)
    | t :: _ => cppfuncLines (findE t "cppfunc") env)
  let stall := (findE root "stallable").isSome
  let stall_mf := if stall
    then ["bool stalled = false;", "void (*_external_stall)();",
      "void stall() \x7b stalled = true; _external_stall(); \x7d"]
    else []
  let stall_caf := if stall then ["void (*external_stall)();"] else []
  let stall_cf := if stall then ["this->_external_stall = arg.external_stall;"] else []
  let stall_atf := if stall then ["stalled = false;"] else []
  let rootComment ← (match findE root "comment" with
    | none => pure ("Combine " ++ cname)
    | some c => textE c)
  return (⟨cname, rootComment,
    pi.caf ++ po.caf ++ rq.caf ++ stall_caf,
    pi.cf ++ po.cf ++ rq.cf ++ initcf ++ stall_cf,
    [],
    pi.mf ++ po.mf ++ rq.mf ++ sv.mf ++ st.1 ++ sn.mf ++ tk.mf ++ cfg ++ stall_mf,
    sv.ff,
    [],
    sn.atf ++ tk.atf ++ stall_atf,
    utf,
    uatf,
    warnT ++ warnA,
    sn.names,
    tk.pairs,
    stall⟩, st.2, sv.lastArg)

/-- The emitted header file (lines 462-501). -/
def emitHeader (out : CombineOut) : List String :=
  ["#pragma once", "", "#include \"common.h\"", "#include \"global.h\"",
   "#include \"bundle.h\"", "#include \"vulsimlib.h\"", "",
   "/* " ++ out.rootComment ++ " */",
   "class " ++ out.cname ++ " \x7b",
   "public:",
   codetab ++ "class ConstructorArguments \x7b",
   codetab ++ "public:"] ++
  out.constructor_arguments_field.map (fun l => codetab ++ codetab ++ l) ++
  [codetab ++ codetab ++ "int32 __dummy = 0;",
   codetab ++ "\x7d;", "",
   codetab ++ out.cname ++ "(ConstructorArguments & arg) \x7b"] ++
  out.constructor_field.map (fun l => codetab ++ codetab ++ l) ++
  [codetab ++ "\x7d", "",
   codetab ++ "~" ++ out.cname ++ "() \x7b"] ++
  out.deconstructor_field.map (fun l => codetab ++ codetab ++ l) ++
  [codetab ++ "\x7d", "",
   codetab ++ "void all_current_tick();",
   codetab ++ "void all_current_applytick();",
   codetab ++ "void user_current_tick();",
   codetab ++ "void user_current_applytick();", ""] ++
  out.member_field.map (fun l => codetab ++ l) ++
  ["\x7d;"]

/-- The emitted implementation file (lines 503-525). -/
def emitCpp (out : CombineOut) : List String :=
  ["#include \"" ++ out.cname ++ ".h\"", ""] ++
  out.function_field ++
  ["void " ++ out.cname ++ "::all_current_tick() \x7b"] ++
  out.tick_field.map (fun l => codetab ++ l) ++
  [codetab ++ "user_current_tick();", "\x7d",
   "void " ++ out.cname ++ "::all_current_applytick() \x7b"] ++
  out.applytick_field.map (fun l => codetab ++ l) ++
  [codetab ++ "user_current_applytick();", "\x7d",
   "void " ++ out.cname ++ "::user_current_tick() \x7b"] ++
  out.user_tick_field.map (fun l => codetab ++ l) ++
  ["\x7d",
   "void " ++ out.cname ++ "::user_current_applytick() \x7b"] ++
  out.user_applytick_field.map (fun l => codetab ++ l) ++
  ["\x7d"]

/-! ## The whole run (CLI checks and header copying excluded) -/

/-- Mutable whole-run state while the combine loop runs: the generated
output files written so far, the module-level `storage` and
`arg_type`/`arg_name` leftovers, and the collected warnings. -/
structure RunState where
  files : List (String × List String)
  lastStorage : Option Elem
  lastArg : Option (String × String)
  warnings : List String

/-- One iteration of the combine loop: root-tag check, parse, write the
two output files. -/
def processCombineFile (st : RunState) (file : String × Elem) (env : CppEnv) :
    Except Err RunState :=
  if file.2.tag ≠ "combine" then .error (.wrongRootCombine file.1)
  else do
    let r ← parseCombine file.2 st.lastStorage st.lastArg env
    return ⟨st.files ++ [(r.1.cname ++ ".h", emitHeader r.1), (r.1.cname ++ ".cpp", emitCpp r.1)],
      r.2.1, r.2.2, st.warnings ++ r.1.warningsAdded⟩

/-- The combine loop; on an error the files written so far remain. -/
def processCombines : RunState → List (String × Elem) → CppEnv → RunState × Option Err
  | st, [], _ => (st, none)
  | st, f :: rest, env =>
    match processCombineFile st f env with
    | .error e => (st, some e)
    | .ok st2 => processCombines st2 rest env

/-- The full generator run on the given bundle and combine descriptor
files: load bundles (fatal root-tag errors abort with nothing written),
resolve the dependency order (a cycle aborts with nothing written), write
`bundle.h`, then process each combine, writing its two files.  Returns
the output files present in the output directory and the fatal
error/exception, if any. -/
def runVulsim (bundleFiles : List (String × Elem)) (combineFiles : List (String × Elem))
    (env : CppEnv) : List (String × List String) × Option Err :=
  match parseBundles bundleFiles with
  | .error e => ([], some e)
  | .ok bf =>
    let nodes := bf.1.map Prod.fst
    let edges := bf.2.filter (fun e => nodes.contains e.1)
    match bundle_check nodes edges with
    | .error e => ([], some e)
    | .ok seqd =>
      let st0 : RunState := ⟨[("bundle.h", bundle_h_lines bf.1 seqd)], none, none, []⟩
      let r := processCombines st0 combineFiles env
      (r.1.files, r.2)

/-! ## Concrete descriptor inputs used by the claims -/

/-- An element with text and no children. -/
def elT (tag txt : String) : Elem := .mk tag (some txt) []

/-- An element with children and no text. -/
def elC (tag : String) (children : List Elem) : Elem := .mk tag none children

/-- An element with both text and children. -/
def elTC (tag txt : String) (children : List Elem) : Elem := .mk tag (some txt) children

/-- An environment in which every external body lookup returns the empty
string (no external `cppfunc` files are referenced by these inputs). -/
def env0 : CppEnv := fun _ _ => ""

/-- Bundle `A` with one member of type `B`. -/
def bundleFileA : Elem :=
  elC "bundle" [elT "name" "A", elC "member" [elT "name" "mb", elT "type" "B"]]

/-- Bundle `B` with one member of type `A`. -/
def bundleFileB : Elem :=
  elC "bundle" [elT "name" "B", elC "member" [elT "name" "ma", elT "type" "A"]]

/-- Bundle `B` with members `x : int32` (default literal `5`) then
`y : BundleC`. -/
def bundleFileX : Elem :=
  elC "bundle" [elT "name" "B",
    elC "member" [elT "name" "x", elT "type" "int32", elT "value" "5"],
    elC "member" [elT "name" "y", elT "type" "BundleC"]]

/-- Bundle `BundleC` with one primitive member. -/
def bundleFileC : Elem :=
  elC "bundle" [elT "name" "BundleC", elC "member" [elT "name" "z", elT "type" "int32"]]

/-- A combine with a `storage` element `s` whose `value` element has text
`9` and a child (hence truthy), followed by a `storagenext` element `n`
whose own `value` is `7`. -/
def combineC3 : Elem :=
  elC "combine" [elT "name" "C3",
    elC "storage" [elT "name" "s", elT "type" "int32", elTC "value" "9" [elC "dummy" []]],
    elC "storagenext" [elT "name" "n", elT "type" "int32", elT "value" "7"]]

/-- A well-formed combine whose first request declares a `return` child
but no `arg` children. -/
def combineC9 : Elem :=
  elC "combine" [elT "name" "C9",
    elC "request" [elT "name" "r", elC "return" [elT "type" "int32", elT "name" "v"]]]

/-- A combine descriptor file whose root tag is not `combine`. -/
def combineBad : Elem := elC "kombine" [elT "name" "X"]

/-- A combine exercising the applytick schedule: a plain storage field, a
buffered register, a tick-reset register, the stall flag, and a user
applytick block. -/
def combineC2 : Elem :=
  elC "combine" [elT "name" "C2",
    elC "storage" [elT "name" "s", elT "type" "int32"],
    elC "storagenext" [elT "name" "n", elT "type" "int32"],
    elC "storagetick" [elT "name" "f", elT "type" "int32", elT "value" "0"],
    elC "stallable" [],
    elC "applytick" [elC "cppfunc" [elT "code" "int q = 0;"]]]

/-- A combine with two `tick` and two `applytick` blocks. -/
def combineC7 : Elem :=
  elC "combine" [elT "name" "C7",
    elC "tick" [elC "cppfunc" [elT "code" "a();"]],
    elC "tick" [elC "cppfunc" [elT "code" "b();"]],
    elC "applytick" [elC "cppfunc" [elT "code" "c();"]],
    elC "applytick" [elC "cppfunc" [elT "code" "d();"]]]

/-! ## Inversion lemmas for the combine parser -/

theorem bind_ok_iff {ε α β : Type} (x : Except ε α) (f : α → Except ε β) (b : β) :
    (x >>= f) = .ok b ↔ ∃ a, x = .ok a ∧ f a = .ok b := by
  cases x <;> simp [Bind.bind, Except.bind]

theorem snextStep_ok {ls : Option Elem} {acc : SnextOut} {it : Elem} {acc2 : SnextOut}
    (h : snextStep ls acc it = .ok acc2) :
    ∃ nm, textOf (findE it "name") = .ok nm ∧
      acc2.atf = acc.atf ++ ["_storagenext_" ++ nm ++ ".apply_tick();"] ∧
      acc2.names = acc.names ++ [nm] := by
  unfold snextStep at h
  rw [bind_ok_iff] at h
  obtain ⟨nm, h1, h⟩ := h
  rw [bind_ok_iff] at h
  obtain ⟨ty, h2, h⟩ := h
  simp only [] at h
  rw [bind_ok_iff] at h
  obtain ⟨cm, h3, h⟩ := h
  rw [bind_ok_iff] at h
  obtain ⟨decl, h4, h⟩ := h
  simp only [pure, Except.pure, Except.ok.injEq] at h
  exact ⟨nm, h1, by rw [← h], by rw [← h]⟩

theorem stickStep_ok {acc : StickOut} {it : Elem} {acc2 : StickOut}
    (h : stickStep acc it = .ok acc2) :
    ∃ nm v, textOf (findE it "name") = .ok nm ∧
      acc2.atf = acc.atf ++ [nm ++ " = " ++ v ++ ";"] ∧
      acc2.pairs = acc.pairs ++ [(nm, v)] := by
  unfold stickStep at h
  rw [bind_ok_iff] at h
  obtain ⟨nm, h1, h⟩ := h
  rw [bind_ok_iff] at h
  obtain ⟨ty, h2, h⟩ := h
  rw [bind_ok_iff] at h
  obtain ⟨v, h3, h⟩ := h
  simp only [] at h
  by_cases hb : (!basic_data_type.contains ty) = true
  · rw [if_pos hb] at h
    simp [throw, throwThe, MonadExceptOf.throw, Bind.bind, Except.bind] at h
  · rw [if_neg hb] at h
    simp only [pure, Except.pure, Bind.bind, Except.bind] at h
    cases h5 : commentOf it with
    | error e =>
      rw [h5] at h
      simp at h
    | ok cm =>
      rw [h5] at h
      simp only [Except.ok.injEq] at h
      exact ⟨nm, v, h1, by rw [← h], by rw [← h]⟩

theorem parseStoragenext_fold :
    ∀ (items : List Elem) (ls : Option Elem) (acc res : SnextOut),
    List.foldlM (snextStep ls) acc items = .ok res →
    (∃ suffix, res.names = acc.names ++ suffix ∧
      res.atf = acc.atf ++ suffix.map (fun n => "_storagenext_" ++ n ++ ".apply_tick();")) ∧
    ∀ it ∈ items, ∃ nm, textOf (findE it "name") = .ok nm ∧ nm ∈ res.names := by
  intro items
  induction items with
  | nil =>
    intro ls acc res h
    simp only [List.foldlM_nil, pure, Except.pure, Except.ok.injEq] at h
    refine ⟨⟨[], by rw [← h]; simp, by rw [← h]; simp⟩, by simp⟩
  | cons it t ih =>
    intro ls acc res h
    rw [List.foldlM_cons, bind_ok_iff] at h
    obtain ⟨acc2, hstep, hrest⟩ := h
    obtain ⟨nm, hnm, hatf, hnames⟩ := snextStep_ok hstep
    obtain ⟨⟨suffix, hn2, ha2⟩, hall⟩ := ih ls acc2 res hrest
    refine ⟨⟨nm :: suffix, ?_, ?_⟩, ?_⟩
    · rw [hn2, hnames, List.append_assoc]
      rfl
    · rw [ha2, hatf, List.append_assoc]
      rfl
    · intro x hx
      rcases List.mem_cons.mp hx with hx | hx
      · refine ⟨nm, by rw [hx]; exact hnm, ?_⟩
        rw [hn2, hnames]
        exact List.mem_append.mpr (Or.inl (List.mem_append.mpr (Or.inr (List.mem_singleton.mpr rfl))))
      · exact hall x hx

theorem parseStoragenext_spec {items : List Elem} {ls : Option Elem} {sn : SnextOut}
    (h : parseStoragenext items ls = .ok sn) :
    sn.atf = sn.names.map (fun n => "_storagenext_" ++ n ++ ".apply_tick();") ∧
    ∀ it ∈ items, ∃ nm, textOf (findE it "name") = .ok nm ∧ nm ∈ sn.names := by
  obtain ⟨⟨suffix, hn, ha⟩, hall⟩ := parseStoragenext_fold items ls ⟨[], [], []⟩ sn h
  simp only [List.nil_append] at hn ha
  exact ⟨by rw [ha, hn], hall⟩

theorem parseStoragetick_fold :
    ∀ (items : List Elem) (acc res : StickOut),
    List.foldlM stickStep acc items = .ok res →
    (∃ suffix, res.pairs = acc.pairs ++ suffix ∧
      res.atf = acc.atf ++ suffix.map (fun p => p.1 ++ " = " ++ p.2 ++ ";")) ∧
    ∀ it ∈ items, ∃ nm v, textOf (findE it "name") = .ok nm ∧ (nm, v) ∈ res.pairs := by
  intro items
  induction items with
  | nil =>
    intro acc res h
    simp only [List.foldlM_nil, pure, Except.pure, Except.ok.injEq] at h
    refine ⟨⟨[], by rw [← h]; simp, by rw [← h]; simp⟩, by simp⟩
  | cons it t ih =>
    intro acc res h
    rw [List.foldlM_cons, bind_ok_iff] at h
    obtain ⟨acc2, hstep, hrest⟩ := h
    obtain ⟨nm, v, hnm, hatf, hpairs⟩ := stickStep_ok hstep
    obtain ⟨⟨suffix, hp2, ha2⟩, hall⟩ := ih acc2 res hrest
    refine ⟨⟨(nm, v) :: suffix, ?_, ?_⟩, ?_⟩
    · rw [hp2, hpairs, List.append_assoc]
      rfl
    · rw [ha2, hatf, List.append_assoc]
      rfl
    · intro x hx
      rcases List.mem_cons.mp hx with hx | hx
      · refine ⟨nm, v, by rw [hx]; exact hnm, ?_⟩
        rw [hp2, hpairs]
        exact List.mem_append.mpr (Or.inl (List.mem_append.mpr (Or.inr (List.mem_singleton.mpr rfl))))
      · exact hall x hx

theorem parseStoragetick_spec {items : List Elem} {tk : StickOut}
    (h : parseStoragetick items = .ok tk) :
    tk.atf = tk.pairs.map (fun p => p.1 ++ " = " ++ p.2 ++ ";") ∧
    ∀ it ∈ items, ∃ nm v, textOf (findE it "name") = .ok nm ∧ (nm, v) ∈ tk.pairs := by
  obtain ⟨⟨suffix, hp, ha⟩, hall⟩ := parseStoragetick_fold items ⟨[], [], []⟩ tk h
  simp only [List.nil_append] at hp ha
  exact ⟨by rw [ha, hp], hall⟩

theorem parseCombine_ok_inv {root : Elem} {ls0 : Option Elem} {la0 : Option (String × String)}
    {env : CppEnv} {out : CombineOut} {ls2 : Option Elem} {la2 : Option (String × String)}
    (h : parseCombine root ls0 la0 env = .ok (out, ls2, la2)) :
    ∃ (cname : String) (pi po : PortOut) (rq : ReqOut) (sv : SvcOut)
      (st : List String × Option Elem) (sn : SnextOut) (tk : StickOut)
      (cfg initcf utf uatf : List String) (rootComment : String),
      textOf (findE root "name") = .ok cname ∧
      parsePipein (findallE root "pipein") = .ok pi ∧
      parsePipeout (findallE root "pipeout") = .ok po ∧
      parseRequests (findallE root "request") la0 = .ok rq ∧
      parseServices (findallE root "service" ++ findallE root "function") rq.lastArg env cname
        = .ok sv ∧
      parseStorage (findallE root "storage") ls0 = .ok st ∧
      parseStoragenext (findallE root "storagenext") st.2 = .ok sn ∧
      parseStoragetick (findallE root "storagetick") = .ok tk ∧
      parseConfig (findallE root "config") = .ok cfg ∧
      parseInit (findallE root "init") env = .ok initcf ∧
      (match findallE root "tick" with
        | [] => Except.ok ([] : List String)
        | t :: _ => cppfuncLines (findE t "cppfunc") env) = .ok utf ∧
      (match findallE root "applytick" with
        | [] => Except.ok ([] : List String)
        | t :: _ => cppfuncLines (findE t "cppfunc") env) = .ok uatf ∧
      out = ⟨cname, rootComment,
        pi.caf ++ po.caf ++ rq.caf
          ++ (if (findE root "stallable").isSome then ["void (*external_stall)();"] else []),
        pi.cf ++ po.cf ++ rq.cf ++ initcf
          ++ (if (findE root "stallable").isSome
              then ["this->_external_stall = arg.external_stall;"] else []),
        [],
        pi.mf ++ po.mf ++ rq.mf ++ sv.mf ++ st.1 ++ sn.mf ++ tk.mf ++ cfg
          ++ (if (findE root "stallable").isSome
              then ["bool stalled = false;", "void (*_external_stall)();",
                "void stall() \x7b stalled = true; _external_stall(); \x7d"] else []),
        sv.ff,
        [],
        sn.atf ++ tk.atf
          ++ (if (findE root "stallable").isSome then ["stalled = false;"] else []),
        utf, uatf,
        (if (findallE root "tick").length > 1
          then ["Combine " ++ cname ++ " has multiple tick(), only the first one is used"]
          else []) ++
          (if (findallE root "applytick").length > 1
            then ["Combine " ++ cname ++ " has multiple applytick(), only the first one is used"]
            else []),
        sn.names, tk.pairs, (findE root "stallable").isSome⟩ := by
  unfold parseCombine at h
  rw [bind_ok_iff] at h
  obtain ⟨cname, h1, h⟩ := h
  rw [bind_ok_iff] at h
  obtain ⟨pi, h2, h⟩ := h
  rw [bind_ok_iff] at h
  obtain ⟨po, h3, h⟩ := h
  rw [bind_ok_iff] at h
  obtain ⟨rq, h4, h⟩ := h
  rw [bind_ok_iff] at h
  obtain ⟨sv, h5, h⟩ := h
  rw [bind_ok_iff] at h
  obtain ⟨st, h6, h⟩ := h
  rw [bind_ok_iff] at h
  obtain ⟨sn, h7, h⟩ := h
  rw [bind_ok_iff] at h
  obtain ⟨tk, h8, h⟩ := h
  rw [bind_ok_iff] at h
  obtain ⟨cfg, h9, h⟩ := h
  rw [bind_ok_iff] at h
  obtain ⟨initcf, h10, h⟩ := h
  rw [bind_ok_iff] at h
  obtain ⟨utf, h11, h⟩ := h
  rw [bind_ok_iff] at h
  obtain ⟨uatf, h12, h⟩ := h
  rw [bind_ok_iff] at h
  obtain ⟨rootComment, h13, h⟩ := h
  simp only [pure, Except.pure, Except.ok.injEq, Prod.mk.injEq] at h
  obtain ⟨hout, _, _⟩ := h
  exact ⟨cname, pi, po, rq, sv, st, sn, tk, cfg, initcf, utf, uatf, rootComment,
    h1, h2, h3, h4, h5, h6, h7, h8, h9, h10, h11, h12, hout.symm⟩

/-! ## Semantics of the scheduled storagetick resets -/

/-- Executing the scheduled `name = default;` reset assignments in order
over a store mapping field names to values. -/
def applyResets (resets : List (String × String)) (σ : String → String) : String → String :=
  resets.foldl (fun σ p => fun x => if x = p.1 then p.2 else σ x) σ

theorem applyResets_not_mem :
    ∀ (l : List (String × String)) (σ : String → String) (n : String),
    n ∉ l.map Prod.fst → applyResets l σ n = σ n := by
  intro l
  induction l with
  | nil => intro σ n _; rfl
  | cons p t ih =>
    intro σ n hn
    have hn1 : n ≠ p.1 := by
      intro he
      exact hn (by rw [he]; exact List.mem_cons_self _ _)
    have hnt : n ∉ t.map Prod.fst := fun hm => hn (List.mem_cons_of_mem _ hm)
    show applyResets t (fun x => if x = p.1 then p.2 else σ x) n = σ n
    rw [ih _ n hnt]
    simp [hn1]

theorem applyResets_unique :
    ∀ (l : List (String × String)) (σ : String → String) (n v : String),
    (n, v) ∈ l → (l.map Prod.fst).countP (fun y => y == n) = 1 →
    applyResets l σ n = v := by
  intro l
  induction l with
  | nil => intro σ n v h _; cases h
  | cons p t ih =>
    intro σ n v hmem hcount
    rw [List.map_cons, countP_eq_cons] at hcount
    by_cases hp : n = p.1
    · have hct : (t.map Prod.fst).countP (fun y => y == n) = 0 := by
        rw [if_pos hp] at hcount
        omega
      have hnt : n ∉ t.map Prod.fst := by
        intro hm
        have : 0 < (t.map Prod.fst).countP (fun y => y == n) :=
          List.countP_pos_iff.mpr ⟨n, hm, by simp⟩
        omega
      have hv : v = p.2 := by
        rcases List.mem_cons.mp hmem with hm | hm
        · exact congrArg Prod.snd hm
        · exact absurd (List.mem_map.mpr ⟨(n, v), hm, rfl⟩) hnt
      show applyResets t (fun x => if x = p.1 then p.2 else σ x) n = v
      rw [applyResets_not_mem t _ n hnt]
      rw [if_pos hp, hv]
    · have hmem2 : (n, v) ∈ t := by
        rcases List.mem_cons.mp hmem with hm | hm
        · exact absurd (congrArg Prod.fst hm) hp
        · exact hm
      have hcount2 : (t.map Prod.fst).countP (fun y => y == n) = 1 := by
        rw [if_neg hp] at hcount
        omega
      exact ih _ n v hmem2 hcount2

theorem mem_map_before_last {l : List String} {s : String} (f : String → String) (u : String)
    (h : s ∈ l) :
    ∃ i j : Nat, i < j ∧ (l.map f ++ [u])[i]? = some (f s) ∧ (l.map f ++ [u])[j]? = some u := by
  obtain ⟨i, hi, hg⟩ := List.mem_iff_getElem.mp h
  refine ⟨i, l.length, hi, ?_, ?_⟩
  · rw [List.getElem?_append, if_pos (by simpa using hi), List.getElem?_map,
      List.getElem?_eq_getElem hi]
    simp [hg]
  · rw [List.getElem?_append, if_neg (by simp)]
    simp

/-- C2: for every combine that parses successfully, the emitted
`all_current_applytick` body is exactly the scheduled `applytick_field`
statements followed by the `user_current_applytick()` call; the schedule
consists of the storagenext commit calls, then the storagetick
reset-to-default assignments, then (when stallable) the stall-flag
reset, each of which therefore appears at a strictly smaller index than
the user-applytick call; executing the scheduled resets stores a
storagetick field's default (so a field set during tick reads back its
default once the commit phase has run, the user logic running only
afterwards). -/
theorem C2_applytick_schedule_before_user {root : Elem} {ls0 : Option Elem}
    {la0 : Option (String × String)} {env : CppEnv} {out : CombineOut}
    {ls2 : Option Elem} {la2 : Option (String × String)}
    (h : parseCombine root ls0 la0 env = .ok (out, ls2, la2)) :
    (∃ pre suf, emitCpp out
      = pre ++ ("void " ++ out.cname ++ "::all_current_applytick() \x7b")
          :: (out.applytick_field.map (fun l => codetab ++ l)
            ++ (codetab ++ "user_current_applytick();") :: "\x7d" :: suf)) ∧
    out.applytick_field
      = out.snextNames.map (fun n => "_storagenext_" ++ n ++ ".apply_tick();")
        ++ out.stickPairs.map (fun p => p.1 ++ " = " ++ p.2 ++ ";")
        ++ (if out.stallFlag then ["stalled = false;"] else []) ∧
    (∀ sn ∈ findallE root "storagenext", ∃ nm, textOf (findE sn "name") = .ok nm ∧
      ("_storagenext_" ++ nm ++ ".apply_tick();") ∈ out.applytick_field) ∧
    (∀ stk ∈ findallE root "storagetick", ∃ nm v, textOf (findE stk "name") = .ok nm ∧
      (nm, v) ∈ out.stickPairs ∧ (nm ++ " = " ++ v ++ ";") ∈ out.applytick_field) ∧
    (out.stallFlag = (findE root "stallable").isSome ∧
      (out.stallFlag = true → "stalled = false;" ∈ out.applytick_field)) ∧
    (∀ s ∈ out.applytick_field, ∃ i j : Nat, i < j ∧
      (out.applytick_field.map (fun l => codetab ++ l)
        ++ [codetab ++ "user_current_applytick();"])[i]? = some (codetab ++ s) ∧
      (out.applytick_field.map (fun l => codetab ++ l)
        ++ [codetab ++ "user_current_applytick();"])[j]?
          = some (codetab ++ "user_current_applytick();")) ∧
    (∀ p ∈ out.stickPairs, (out.stickPairs.map Prod.fst).countP (fun y => y == p.1) = 1 →
      ∀ σ : String → String, applyResets out.stickPairs σ p.1 = p.2) := by
  obtain ⟨cname, pi, po, rq, sv, st, sn, tk, cfg, initcf, utf, uatf, rootComment,
    h1, h2, h3, h4, h5, h6, h7, h8, h9, h10, h11, h12, hout⟩ := parseCombine_ok_inv h
  obtain ⟨hsnatf, hsnall⟩ := parseStoragenext_spec h7
  obtain ⟨htkatf, htkall⟩ := parseStoragetick_spec h8
  subst hout
  refine ⟨?_, ?_, ?_, ?_, ⟨rfl, ?_⟩, ?_, ?_⟩
  · refine ⟨["#include \"" ++ cname ++ ".h\"", ""] ++ sv.ff
      ++ ["void " ++ cname ++ "::all_current_tick() \x7b",
          codetab ++ "user_current_tick();", "\x7d"],
      ("void " ++ cname ++ "::user_current_tick() \x7b")
        :: (utf.map (fun l => codetab ++ l)
          ++ ["\x7d", "void " ++ cname ++ "::user_current_applytick() \x7b"]
          ++ uatf.map (fun l => codetab ++ l) ++ ["\x7d"]), ?_⟩
    simp [emitCpp]
  · show sn.atf ++ tk.atf ++ _ = _
    rw [hsnatf, htkatf]
  · intro snel hmem
    obtain ⟨nm, hnm, hin⟩ := hsnall snel hmem
    refine ⟨nm, hnm, ?_⟩
    show _ ∈ sn.atf ++ tk.atf ++ _
    refine List.mem_append.mpr (Or.inl (List.mem_append.mpr (Or.inl ?_)))
    rw [hsnatf]
    exact List.mem_map.mpr ⟨nm, hin, rfl⟩
  · intro stkel hmem
    obtain ⟨nm, v, hnm, hin⟩ := htkall stkel hmem
    refine ⟨nm, v, hnm, hin, ?_⟩
    show _ ∈ sn.atf ++ tk.atf ++ _
    refine List.mem_append.mpr (Or.inl (List.mem_append.mpr (Or.inr ?_)))
    rw [htkatf]
    exact List.mem_map.mpr ⟨(nm, v), hin, rfl⟩
  · intro hstall
    have hstall2 : (findE root "stallable").isSome = true := hstall
    show _ ∈ sn.atf ++ tk.atf ++ _
    rw [hstall2]
    simp
  · intro s hs
    exact mem_map_before_last _ _ hs
  · intro p hp hcount σ
    exact applyResets_unique _ σ p.1 p.2 hp hcount

/-- C7: for every combine descriptor with more than one `tick` element
a non-fatal warning is recorded, and the generated user tick body always
comes from the first `tick` element's code block alone, so later
duplicates contribute nothing; likewise for `applytick`. -/
theorem C7_duplicate_tick_first_wins {root : Elem} {ls0 : Option Elem}
    {la0 : Option (String × String)} {env : CppEnv} {out : CombineOut}
    {ls2 : Option Elem} {la2 : Option (String × String)}
    (h : parseCombine root ls0 la0 env = .ok (out, ls2, la2)) :
    ((findallE root "tick").length > 1 →
      ("Combine " ++ out.cname ++ " has multiple tick(), only the first one is used")
        ∈ out.warningsAdded) ∧
    (∀ t rest, findallE root "tick" = t :: rest →
      cppfuncLines (findE t "cppfunc") env = .ok out.user_tick_field) ∧
    ((findallE root "applytick").length > 1 →
      ("Combine " ++ out.cname ++ " has multiple applytick(), only the first one is used")
        ∈ out.warningsAdded) ∧
    (∀ t rest, findallE root "applytick" = t :: rest →
      cppfuncLines (findE t "cppfunc") env = .ok out.user_applytick_field) := by
  obtain ⟨cname, pi, po, rq, sv, st, sn, tk, cfg, initcf, utf, uatf, rootComment,
    h1, h2, h3, h4, h5, h6, h7, h8, h9, h10, h11, h12, hout⟩ := parseCombine_ok_inv h
  subst hout
  refine ⟨?_, ?_, ?_, ?_⟩
  · intro hlen
    show _ ∈ (if (findallE root "tick").length > 1 then _ else []) ++ _
    rw [if_pos hlen]
    exact List.mem_append.mpr (Or.inl (List.mem_singleton.mpr rfl))
  · intro t rest hticks
    rw [hticks] at h11
    exact h11
  · intro hlen
    show _ ∈ _ ++ (if (findallE root "applytick").length > 1 then _ else [])
    rw [if_pos hlen]
    exact List.mem_append.mpr (Or.inr (List.mem_singleton.mpr rfl))
  · intro t rest hticks
    rw [hticks] at h12
    exact h12

/-- C10: for every combine that parses successfully, `tick_field` is
empty (nothing is ever scheduled into the framework tick phase) and the
emitted `all_current_tick` body consists solely of the
`user_current_tick()` call, whatever the combine's fields are. -/
theorem C10_all_current_tick_only_user_call {root : Elem} {ls0 : Option Elem}
    {la0 : Option (String × String)} {env : CppEnv} {out : CombineOut}
    {ls2 : Option Elem} {la2 : Option (String × String)}
    (h : parseCombine root ls0 la0 env = .ok (out, ls2, la2)) :
    out.tick_field = [] ∧
    ∃ suf, emitCpp out
      = ["#include \"" ++ out.cname ++ ".h\"", ""] ++ out.function_field
        ++ ("void " ++ out.cname ++ "::all_current_tick() \x7b")
          :: (codetab ++ "user_current_tick();") :: "\x7d" :: suf := by
  obtain ⟨cname, pi, po, rq, sv, st, sn, tk, cfg, initcf, utf, uatf, rootComment,
    h1, h2, h3, h4, h5, h6, h7, h8, h9, h10, h11, h12, hout⟩ := parseCombine_ok_inv h
  subst hout
  refine ⟨rfl, ?_⟩
  refine ⟨("void " ++ cname ++ "::all_current_applytick() \x7b")
    :: ((sn.atf ++ tk.atf
        ++ (if (findE root "stallable").isSome then ["stalled = false;"] else [])).map
          (fun l => codetab ++ l)
      ++ [codetab ++ "user_current_applytick();", "\x7d",
        "void " ++ cname ++ "::user_current_tick() \x7b"]
      ++ utf.map (fun l => codetab ++ l)
      ++ ["\x7d", "void " ++ cname ++ "::user_current_applytick() \x7b"]
      ++ uatf.map (fun l => codetab ++ l) ++ ["\x7d"]), ?_⟩
  simp [emitCpp]

/-- The parse result of `combineC2` (checked by `rfl` in the witnesses). -/
def combineC2_out : CombineOut := ⟨"C2", "Combine C2",
  ["void (*external_stall)();"],
  ["this->_external_stall = arg.external_stall;"],
  [],
  ["/*  */", "int32 s = 0;", "StorageNext<int32> _storagenext_n;", "/*  */",
   "int32 n_get() \x7b return _storagenext_n.get(); \x7d;", "/*  */",
   "void n_setnext(int32 value, uint8 priority) \x7b _storagenext_n.setnext(value, priority); \x7d ;",
   "int32 f = 0;", "bool stalled = false;", "void (*_external_stall)();",
   "void stall() \x7b stalled = true; _external_stall(); \x7d"],
  [], [],
  ["_storagenext_n.apply_tick();", "f = 0;", "stalled = false;"],
  [], ["int q = 0;"], [], ["n"], [("f", "0")], true⟩

/-- The parse result of `combineC7`. -/
def combineC7_out : CombineOut := ⟨"C7", "Combine C7", [], [], [], [], [], [], [],
  ["a();"], ["c();"],
  ["Combine C7 has multiple tick(), only the first one is used",
   "Combine C7 has multiple applytick(), only the first one is used"],
  [], [], false⟩

/-- Witness for C2 at the concrete combine with a buffered register, a
tick-reset register and the stall flag. -/
theorem C2_applytick_schedule_before_user_witness :
    parseCombine combineC2 none none env0
        = .ok (combineC2_out, some (elC "storage" [elT "name" "s", elT "type" "int32"]), none) ∧
    combineC2_out.applytick_field
      = combineC2_out.snextNames.map (fun n => "_storagenext_" ++ n ++ ".apply_tick();")
        ++ combineC2_out.stickPairs.map (fun p => p.1 ++ " = " ++ p.2 ++ ";")
        ++ (if combineC2_out.stallFlag then ["stalled = false;"] else []) := by
  have hp : parseCombine combineC2 none none env0
      = .ok (combineC2_out, some (elC "storage" [elT "name" "s", elT "type" "int32"]), none) := rfl
  exact ⟨hp, (C2_applytick_schedule_before_user hp).2.1⟩

/-- Witness for C7 at the concrete combine with two tick and two
applytick blocks. -/
theorem C7_duplicate_tick_first_wins_witness :
    parseCombine combineC7 none none env0 = .ok (combineC7_out, none, none) ∧
    ((findallE combineC7 "tick").length > 1 ∧
      ("Combine C7 has multiple tick(), only the first one is used")
        ∈ combineC7_out.warningsAdded) ∧
    ((findallE combineC7 "applytick").length > 1 ∧
      ("Combine C7 has multiple applytick(), only the first one is used")
        ∈ combineC7_out.warningsAdded) := by
  have hp : parseCombine combineC7 none none env0 = .ok (combineC7_out, none, none) := rfl
  have h := C7_duplicate_tick_first_wins hp
  exact ⟨hp, ⟨by decide, h.1 (by decide)⟩, ⟨by decide, h.2.2.1 (by decide)⟩⟩

/-- Witness for C10 at the same concrete combine as C2. -/
theorem C10_all_current_tick_only_user_call_witness :
    parseCombine combineC2 none none env0
        = .ok (combineC2_out, some (elC "storage" [elT "name" "s", elT "type" "int32"]), none) ∧
    combineC2_out.tick_field = [] := by
  have hp : parseCombine combineC2 none none env0
      = .ok (combineC2_out, some (elC "storage" [elT "name" "s", elT "type" "int32"]), none) := rfl
  exact ⟨hp, (C10_all_current_tick_only_user_call hp).1⟩

/-- The variant of `combineC3` differing only in the earlier `storage`
element's `value` text (`8` instead of `9`); its `storagenext` element is
identical. -/
def combineC3b : Elem :=
  elC "combine" [elT "name" "C3",
    elC "storage" [elT "name" "s", elT "type" "int32", elTC "value" "8" [elC "dummy" []]],
    elC "storagenext" [elT "name" "n", elT "type" "int32", elT "value" "7"]]

/-- Parse result of `combineC3`. -/
def combineC3_out : CombineOut := ⟨"C3", "Combine C3", [], [], [],
  ["/*  */", "int32 s = 9;",
   "StorageNext<int32> _storagenext_n = StorageNext<int32>(9);", "/*  */",
   "int32 n_get() \x7b return _storagenext_n.get(); \x7d;", "/*  */",
   "void n_setnext(int32 value, uint8 priority) \x7b _storagenext_n.setnext(value, priority); \x7d ;"],
  [], [], ["_storagenext_n.apply_tick();"], [], [], [], ["n"], [], false⟩

/-- Parse result of `combineC3b`. -/
def combineC3b_out : CombineOut := ⟨"C3", "Combine C3", [], [], [],
  ["/*  */", "int32 s = 8;",
   "StorageNext<int32> _storagenext_n = StorageNext<int32>(8);", "/*  */",
   "int32 n_get() \x7b return _storagenext_n.get(); \x7d;", "/*  */",
   "void n_setnext(int32 value, uint8 priority) \x7b _storagenext_n.setnext(value, priority); \x7d ;"],
  [], [], ["_storagenext_n.apply_tick();"], [], [], [], ["n"], [], false⟩

/-- C3 (code bug, line 370): the emitted `storagenext` member declaration
is NOT determined by the `storagenext` element's own `value` sub-element.
On `combineC3` the field `n` (own default `7`) is declared with default
`9`, read from the preceding `storage` element; on `combineC3b`, which
has the *identical* `storagenext` element but an earlier `storage`
element with value `8`, the declaration changes to default `8`. -/
theorem C3_storagenext_default_reads_stale_storage :
    parseCombine combineC3 none none env0
      = .ok (combineC3_out,
          some (elC "storage" [elT "name" "s", elT "type" "int32",
            elTC "value" "9" [elC "dummy" []]]), none) ∧
    "StorageNext<int32> _storagenext_n = StorageNext<int32>(9);" ∈ combineC3_out.member_field ∧
    "StorageNext<int32> _storagenext_n = StorageNext<int32>(7);" ∉ combineC3_out.member_field ∧
    parseCombine combineC3b none none env0
      = .ok (combineC3b_out,
          some (elC "storage" [elT "name" "s", elT "type" "int32",
            elTC "value" "8" [elC "dummy" []]]), none) ∧
    "StorageNext<int32> _storagenext_n = StorageNext<int32>(8);" ∈ combineC3b_out.member_field ∧
    findallE combineC3 "storagenext" = findallE combineC3b "storagenext" :=
  ⟨rfl, by decide, by decide, rfl, by decide, rfl⟩

/-- The `bundle.h` emitted for the C6 input. -/
def bundleH_C6 : List String :=
  ["#pragma once", "", "#include \"common.h\"", "#include \"global.h\"", "",
   "typedef struct \x7b", "    int32 z = 0;", "\x7d BundleC;", "",
   "typedef struct \x7b", "    int32 x = 0;", "    BundleC y;", "\x7d B;", ""]

/-- C6 (code bug, line 86): for the bundle with members
`[x : int32 (default "5"), y : BundleC]` the emitted struct preserves
member order and gives `y` no default, but `x` is initialised to `0`,
not `5`: the presence check `if member.find("value"):` tests ElementTree
truthiness, which is false for a `value` element that has text but no
children, so the literal default is never picked up. -/
theorem C6_bundle_member_default_dropped :
    runVulsim [("b.xml", bundleFileX), ("c.xml", bundleFileC)] [] env0
      = ([("bundle.h", bundleH_C6)], none) ∧
    "    int32 x = 0;" ∈ bundleH_C6 ∧
    "    int32 x = 5;" ∉ bundleH_C6 ∧
    "    BundleC y;" ∈ bundleH_C6 :=
  ⟨rfl, by decide, by decide, by decide⟩

/-- C9: a well-formed combine descriptor whose first (and only) request
element has a `return` child but no `arg` children makes the run raise
an unhandled `NameError` (the module-level `arg_type`/`arg_name`
variables are read in the return loop before any assignment); no combine
output is emitted and no diagnostic recorded — only the already-written
`bundle.h` remains. -/
theorem C9_return_without_args_nameError :
    runVulsim [] [("c9.xml", combineC9)] env0
      = ([("bundle.h",
          ["#pragma once", "", "#include \"common.h\"", "#include \"global.h\"", ""])],
         some Err.nameError) ∧
    findallE combineC9 "request"
      = [elC "request" [elT "name" "r", elC "return" [elT "type" "int32", elT "name" "v"]]] ∧
    findallE (elC "request" [elT "name" "r",
      elC "return" [elT "type" "int32", elT "name" "v"]]) "arg" = [] ∧
    (findallE (elC "request" [elT "name" "r",
      elC "return" [elT "type" "int32", elT "name" "v"]]) "return").length = 1 :=
  ⟨rfl, rfl, rfl, rfl⟩

/-- C4: whenever the Kahn order omits any bundle, the check at lines
118-120 fails — `sys.exit(1)` with a cycle error whose name list is
exactly the bundles of nonzero residual in-degree (so it names every
such bundle); and for the concrete two-bundle graph where A contains B
and B contains A, the whole run exits with the cycle error naming
exactly A and B, writing no output files. -/
theorem C4_cycle_check_failure (nodes : List String) (edges : List (String × String))
    (Hn : nodes.Nodup) (He : ∀ e ∈ edges, e.1 ∈ nodes ∧ e.2 ∈ nodes) :
    (∀ b ∈ nodes, b ∉ bundle_sequence nodes edges →
      bundle_check nodes edges = .error (.cycleError (cycle_names nodes edges)) ∧
      exit_code (.cycleError (cycle_names nodes edges)) = 1 ∧
      (∀ x ∈ nodes, kahn_final_indegree nodes edges x ≠ 0 → x ∈ cycle_names nodes edges)) ∧
    runVulsim [("a.xml", bundleFileA), ("b.xml", bundleFileB)] [] env0
      = ([], some (.cycleError ["A", "B"])) := by
  constructor
  · intro b hb hnb
    have inv := kahn_final nodes edges Hn He
    have hnodup : (bundle_sequence nodes edges).Nodup := by
      have := inv.nodup
      simpa using this
    have hsub : ∀ x ∈ bundle_sequence nodes edges, x ∈ nodes := by
      intro x hx
      exact inv.subset x (by simpa using hx)
    have hlen : (bundle_sequence nodes edges).length + 1 ≤ nodes.length := by
      have hnodup2 : (bundle_sequence nodes edges ++ [b]).Nodup := by
        rw [List.nodup_append]
        exact ⟨hnodup, List.nodup_singleton b,
          fun a ha hab => hnb (by rwa [List.mem_singleton.mp hab] at ha)⟩
      have hsub2 : ∀ x ∈ bundle_sequence nodes edges ++ [b], x ∈ nodes := by
        intro x hx
        rcases List.mem_append.mp hx with hx | hx
        · exact hsub x hx
        · rwa [List.mem_singleton.mp hx]
      have := nodup_subset_length hnodup2 hsub2
      simpa using this
    refine ⟨?_, rfl, ?_⟩
    · rw [bundle_check, if_neg (by omega)]
    · intro x hx hind
      refine List.mem_filter.mpr ⟨hx, ?_⟩
      have : (kahn_final_indegree nodes edges x == 0) = false :=
        beq_eq_false_iff_ne.mpr hind
      rw [this]
      rfl
  · rfl

/-- Witness for C4 at the concrete cyclic two-bundle graph. -/
theorem C4_cycle_check_failure_witness :
    bundle_check ["A", "B"] [("B", "A"), ("A", "B")]
      = .error (.cycleError (cycle_names ["A", "B"] [("B", "A"), ("A", "B")])) ∧
    cycle_names ["A", "B"] [("B", "A"), ("A", "B")] = ["A", "B"] := by
  have h := (C4_cycle_check_failure ["A", "B"] [("B", "A"), ("A", "B")]
    (by decide) (by decide)).1 "A" (by decide) (by decide)
  exact ⟨h.1, by decide⟩

/-! ## Which errors each run phase can raise -/

theorem bind_error_iff {ε α β : Type} (x : Except ε α) (f : α → Except ε β) (e : ε) :
    (x >>= f) = .error e ↔ x = .error e ∨ ∃ a, x = .ok a ∧ f a = .error e := by
  cases x <;> simp [Bind.bind, Except.bind]

theorem textOf_error {o : Option Elem} {e : Err} (h : textOf o = .error e) :
    e = .attributeError := by
  cases o with
  | none =>
    simp only [textOf] at h
    injection h with h
    exact h.symm
  | some el =>
    cases hel : el.text with
    | none =>
      simp only [textOf, textE, hel] at h
      injection h with h
      exact h.symm
    | some s =>
      simp only [textOf, textE, hel] at h
      exact Except.noConfusion h

theorem parseBundleMember_error {m : Elem} {e : Err}
    (h : parseBundleMember m = .error e) : e = .attributeError := by
  unfold parseBundleMember at h
  rw [bind_error_iff] at h
  rcases h with h | ⟨a, ha, h⟩
  · exact textOf_error h
  rw [bind_error_iff] at h
  rcases h with h | ⟨b, hb, h⟩
  · exact textOf_error h
  simp only [] at h
  by_cases hcond : (basic_data_type.contains b && truthyE (findE m "value")) = true
  · rw [if_pos hcond] at h
    rw [bind_error_iff] at h
    rcases h with h | ⟨v, hv, h⟩
    · exact textOf_error h
    · simp [pure, Except.pure] at h
  · rw [if_neg hcond] at h
    simp [pure, Except.pure, Bind.bind, Except.bind] at h

theorem memberFold_error :
    ∀ (l : List Elem) (acc : List BundleMember) (e : Err),
    (l.foldlM (fun acc m => do
        let bm ← parseBundleMember m
        return acc ++ [bm]) acc) = .error e →
    ∃ a ∈ l, parseBundleMember a = .error e := by
  intro l
  induction l with
  | nil =>
    intro acc e h
    simp [List.foldlM_nil, pure, Except.pure] at h
  | cons a t ih =>
    intro acc e h
    rw [List.foldlM_cons] at h
    rw [bind_error_iff] at h
    rcases h with h | ⟨acc2, hacc2, h⟩
    · rw [bind_error_iff] at h
      rcases h with h | ⟨bm, hbm, h⟩
      · exact ⟨a, List.mem_cons_self _ _, h⟩
      · simp [pure, Except.pure] at h
    · obtain ⟨x, hx, hxe⟩ := ih acc2 e h
      exact ⟨x, List.mem_cons_of_mem _ hx, hxe⟩

theorem parseBundleFile_error {f : String} {r : Elem} {e : Err}
    (h : parseBundleFile f r = .error e) :
    e = .wrongRootBundle f ∨ e = .attributeError := by
  unfold parseBundleFile at h
  by_cases hroot : r.tag ≠ "bundle"
  · rw [if_pos hroot] at h
    injection h with h
    exact Or.inl h.symm
  · rw [if_neg hroot] at h
    rw [bind_error_iff] at h
    rcases h with h | ⟨nm, hnm, h⟩
    · exact Or.inr (textOf_error h)
    rw [bind_error_iff] at h
    rcases h with h | ⟨ms, hms, h⟩
    · obtain ⟨a, _, hae⟩ := memberFold_error _ _ _ h
      exact Or.inr (parseBundleMember_error hae)
    · simp [pure, Except.pure] at h

theorem parseBundles_fold_error :
    ∀ (files : List (String × Elem))
      (acc : List (String × List BundleMember) × List (String × String)) (e : Err),
    (files.foldlM (fun acc f => do
        let nm ← parseBundleFile f.1 f.2
        return (dinsert acc.1 nm.1 nm.2, acc.2 ++ bundleDeps nm.1 nm.2)) acc) = .error e →
    (∃ f, e = .wrongRootBundle f) ∨ e = .attributeError := by
  intro files
  induction files with
  | nil =>
    intro acc e h
    simp [List.foldlM_nil, pure, Except.pure] at h
  | cons f t ih =>
    intro acc e h
    rw [List.foldlM_cons] at h
    rw [bind_error_iff] at h
    rcases h with h | ⟨acc2, hacc2, h⟩
    · rw [bind_error_iff] at h
      rcases h with h | ⟨nm, _, h⟩
      · rcases parseBundleFile_error h with h | h
        · exact Or.inl ⟨f.1, h⟩
        · exact Or.inr h
      · simp [pure, Except.pure] at h
    · exact ih acc2 e h

theorem parseBundles_error {files : List (String × Elem)} {e : Err}
    (h : parseBundles files = .error e) :
    (∃ f, e = .wrongRootBundle f) ∨ e = .attributeError := by
  unfold parseBundles at h
  exact parseBundles_fold_error files _ e h

theorem bundle_check_error {nodes : List String} {edges : List (String × String)} {e : Err}
    (h : bundle_check nodes edges = .error e) :
    e = .cycleError (cycle_names nodes edges) := by
  unfold bundle_check at h
  by_cases hc : (bundle_sequence nodes edges).length = nodes.length
  · rw [if_pos hc] at h
    simp at h
  · rw [if_neg hc] at h
    injection h with h
    exact h.symm

theorem processCombineFile_files {st : RunState} {f : String × Elem} {env : CppEnv}
    {st2 : RunState} (h : processCombineFile st f env = .ok st2) :
    ∃ add, st2.files = st.files ++ add := by
  unfold processCombineFile at h
  by_cases htag : f.2.tag ≠ "combine"
  · rw [if_pos htag] at h
    simp at h
  · rw [if_neg htag] at h
    rw [bind_ok_iff] at h
    obtain ⟨r, hr, h⟩ := h
    simp only [pure, Except.pure, Except.ok.injEq] at h
    exact ⟨_, by rw [← h]⟩

theorem processCombines_files_mono :
    ∀ (cf : List (String × Elem)) (st : RunState) (env : CppEnv) (x : String × List String),
    x ∈ st.files → x ∈ (processCombines st cf env).1.files := by
  intro cf
  induction cf with
  | nil =>
    intro st env x hx
    exact hx
  | cons f t ih =>
    intro st env x hx
    cases hpc : processCombineFile st f env with
    | error e =>
      simp only [processCombines, hpc]
      exact hx
    | ok st2 =>
      simp only [processCombines, hpc]
      apply ih
      obtain ⟨add, hadd⟩ := processCombineFile_files hpc
      rw [hadd]
      exact List.mem_append.mpr (Or.inl hx)

/-- The `bundle.h` content of a run with no bundle descriptors. -/
def bundleH_empty : List String :=
  ["#pragma once", "", "#include \"common.h\"", "#include \"global.h\"", ""]

/-- Counterexample to C8 as stated: a run whose sole combine descriptor
has root tag `kombine` aborts with exit code 1, but the output directory
is NOT free of partial output — `bundle.h` has already been written
before any combine file is parsed. -/
theorem C8_wrong_root_partial_output_counterexample :
    runVulsim [] [("bad.xml", combineBad)] env0
      = ([("bundle.h", bundleH_empty)], some (.wrongRootCombine "bad.xml")) ∧
    (runVulsim [] [("bad.xml", combineBad)] env0).1 ≠ [] ∧
    combineBad.tag ≠ "combine" :=
  ⟨rfl, by decide, by decide⟩

/-- C8 (amended): whenever a descriptor file's root tag does not match
the expected kind the run aborts immediately with exit code 1; for
bundle descriptors (and any other bundle-phase failure) no output file
has been written yet, but for combine descriptors `bundle.h` — and any
previously processed combine's files — are already in the output
directory. -/
theorem C8_wrong_root_abort :
    (∀ (bf cf : List (String × Elem)) (env : CppEnv) (e : Err),
      parseBundles bf = .error e → runVulsim bf cf env = ([], some e)) ∧
    (∀ (bf cf : List (String × Elem)) (env : CppEnv)
      (files : List (String × List String)) (f : String),
      runVulsim bf cf env = (files, some (.wrongRootCombine f)) →
      ∃ L, ("bundle.h", L) ∈ files) ∧
    (∀ f, exit_code (.wrongRootBundle f) = 1 ∧ exit_code (.wrongRootCombine f) = 1) := by
  refine ⟨?_, ?_, fun f => ⟨rfl, rfl⟩⟩
  · intro bf cf env e h
    unfold runVulsim
    rw [h]
  · intro bf cf env files f hrun
    unfold runVulsim at hrun
    cases hb : parseBundles bf with
    | error e =>
      rw [hb] at hrun
      have he : e = Err.wrongRootCombine f := by
        have := congrArg Prod.snd hrun
        simpa using this
      rcases parseBundles_error hb with ⟨g, hg⟩ | hg <;> rw [he] at hg <;> cases hg
    | ok bfv =>
      rw [hb] at hrun
      simp only [] at hrun
      cases hc : bundle_check (bfv.1.map Prod.fst)
          (bfv.2.filter (fun e => (bfv.1.map Prod.fst).contains e.1)) with
      | error e =>
        rw [hc] at hrun
        have he : e = Err.wrongRootCombine f := by
          have := congrArg Prod.snd hrun
          simpa using this
        have := bundle_check_error hc
        rw [he] at this
        cases this
      | ok seqd =>
        rw [hc] at hrun
        simp only [] at hrun
        have hfiles : files = (processCombines
            ⟨[("bundle.h", bundle_h_lines bfv.1 seqd)], none, none, []⟩ cf env).1.files := by
          have := congrArg Prod.fst hrun
          simpa using this.symm
        refine ⟨bundle_h_lines bfv.1 seqd, ?_⟩
        rw [hfiles]
        exact processCombines_files_mono cf _ env _ (List.mem_singleton.mpr rfl)

/-- Witness for C8 (amended): a bad bundle root tag aborts with nothing
written; a bad combine root tag aborts with `bundle.h` already present. -/
theorem C8_wrong_root_abort_witness :
    runVulsim [("bb.xml", elC "bundel" [elT "name" "Y"])] [] env0
      = ([], some (.wrongRootBundle "bb.xml")) ∧
    (∃ L, ("bundle.h", L) ∈ (runVulsim [] [("bad.xml", combineBad)] env0).1) := by
  have h := C8_wrong_root_abort
  refine ⟨h.1 _ [] env0 _ (by rfl), ?_⟩
  exact h.2.1 [] [("bad.xml", combineBad)] env0 _ "bad.xml" (by rfl)
